import Mathlib

/-!
Shallow embedding of the `yukari-movegen` chess move generator
(crate `yukari-movegen`, files `src/square.rs`, `src/piece.rs`, `src/colour.rs`,
`src/chessmove.rs`, `src/board/{bitlist,piecelist,piecemask,index,data,mod}.rs`,
and `src/lib.rs`), together with theorems settling the frozen claims.

Conventions of the embedding:
* `Square` is `Fin 64` (the Rust `Square` stores `NonZeroU8` in 1..=64 and
  `into_inner` yields 0..=63; we model the 0..=63 view directly).
* `u32` bit sets (`Bitlist`) are `Nat`s; all operations mask to 32 bits where
  the Rust code relies on the width.
* `u64` hashes are `Nat`s; the only operation is XOR, which never overflows.
* Rust iterators over a `Bitlist` pop the lowest set bit repeatedly, which
  visits the set bit indices in ascending order; we model iteration as the
  ascending list of set bit indices below 32.
* `panic!`/`unwrap` on paths the callers make unreachable are modelled by
  returning an innocuous default, noted at each site; theorems carry
  hypotheses ruling those paths out where they matter.
-/

namespace Yukari

/-- `src/colour.rs`: piece colour. -/
inductive Colour where
  | white
  | black
deriving DecidableEq, Repr

/-- `impl Not for Colour`. -/
def Colour.not : Colour → Colour
  | .white => .black
  | .black => .white

/-- `impl From<Colour> for usize`. -/
def Colour.toIdx : Colour → Fin 2
  | .white => 0
  | .black => 1

/-- `src/piece.rs`: piece kind. -/
inductive Piece where
  | pawn
  | knight
  | bishop
  | rook
  | queen
  | king
deriving DecidableEq, Repr

/-- The Rust `Piece as usize` cast uses the declaration-order discriminant
(`Pawn = 0`, ..., `King = 5`); this is the index used for Zobrist piece keys. -/
def Piece.discr : Piece → Fin 6
  | .pawn => 0
  | .knight => 1
  | .bishop => 2
  | .rook => 3
  | .queen => 4
  | .king => 5

/-- `Piece` derives `PartialOrd` by declaration order in the crate
(`Pawn < Knight < Bishop < Rook < Queen < King`); used by the MVV/LVA
bad-capture pruning (`victim_type < Piece::Bishop` etc.). -/
def Piece.lt (a b : Piece) : Bool := a.discr.val < b.discr.val

/-- `src/square.rs`: a square, in the 0..=63 view (`Square::into_inner`). -/
abbrev Square := Fin 64

/-- `src/square.rs`: chessboard rank (`Rank`), as its `u8` value 0..=7. -/
abbrev Rank := Fin 8

/-- `src/square.rs`: chessboard file (`File`), as its `u8` value 0..=7. -/
abbrev File := Fin 8

/-- `impl From<Square> for Rank`: `square.into_inner() / 8`. -/

def Square.rank (sq : Square) : Rank := ⟨sq.val / 8, by omega⟩

/-- `impl From<Square> for File`: `square.into_inner() % 8`. -/
def Square.file (sq : Square) : File := ⟨sq.val % 8, Nat.mod_lt _ (by omega)⟩

/-- `Square::from_rank_file`: `8 * rank + file`. -/
def Square.fromRankFile (r : Rank) (f : File) : Square :=
  ⟨8 * r.val + f.val, by omega⟩

/-- `Rank::is_relative_fourth`. -/
def Rank.isRelativeFourth (r : Rank) (c : Colour) : Bool :=
  match c with
  | .white => r = (3 : Fin 8)
  | .black => r = (4 : Fin 8)

/-- `Rank::is_relative_eighth`. -/
def Rank.isRelativeEighth (r : Rank) (c : Colour) : Bool :=
  match c with
  | .white => r = (7 : Fin 8)
  | .black => r = (0 : Fin 8)

/-- `src/square.rs`: the sixteen compass directions. -/
inductive Direction where
  | north
  | northNorthEast
  | northEast
  | eastNorthEast
  | east
  | eastSouthEast
  | southEast
  | southSouthEast
  | south
  | southSouthWest
  | southWest
  | westSouthWest
  | west
  | westNorthWest
  | northWest
  | northNorthWest
deriving DecidableEq, Repr

/-- `Direction::opposite`. -/
def Direction.opposite : Direction → Direction
  | .north => .south
  | .northNorthEast => .southSouthWest
  | .northEast => .southWest
  | .eastNorthEast => .westSouthWest
  | .east => .west
  | .eastSouthEast => .westNorthWest
  | .southEast => .northWest
  | .southSouthEast => .northNorthWest
  | .south => .north
  | .southSouthWest => .northNorthEast
  | .southWest => .northEast
  | .westSouthWest => .eastNorthEast
  | .west => .east
  | .westNorthWest => .eastSouthEast
  | .northWest => .southEast
  | .northNorthWest => .southSouthEast

/-- `Direction::diagonal`. -/
def Direction.diagonal : Direction → Bool
  | .northEast | .southEast | .southWest | .northWest => true
  | _ => false

/-- `Direction::orthogonal`. -/
def Direction.orthogonal : Direction → Bool
  | .north | .east | .west | .south => true
  | _ => false

/-- `Direction::to_16x8`: the signed 16×8 offset of each direction. -/
def Direction.to16x8 : Direction → Int
  | .north => 16
  | .northNorthEast => 33
  | .northEast => 17
  | .eastNorthEast => 18
  | .east => 1
  | .eastSouthEast => -14
  | .southEast => -15
  | .southSouthEast => -31
  | .south => -16
  | .southSouthWest => -33
  | .southWest => -17
  | .westSouthWest => -18
  | .west => -1
  | .westNorthWest => 14
  | .northWest => 15
  | .northNorthWest => 31

/-- `Direction::valid_for_slider`; the Rust code is `unreachable!` on
non-sliders, which its only caller guards; modelled as `false` there. -/
def Direction.validForSlider (d : Direction) (p : Piece) : Bool :=
  match p with
  | .bishop => d.diagonal
  | .rook => d.orthogonal
  | .queen => d.diagonal || d.orthogonal
  | _ => false

def DIRECTIONS_00 : List (Option Direction) := [
  some Direction.southWest, none, none, none, none, none, none, some Direction.south,
  none, none, none, none, none, none, some Direction.southEast, none]

def DIRECTIONS_01 : List (Option Direction) := [
  none, some Direction.southWest, none, none, none, none, none, some Direction.south,
  none, none, none, none, none, some Direction.southEast, none, none]

def DIRECTIONS_02 : List (Option Direction) := [
  none, none, some Direction.southWest, none, none, none, none, some Direction.south,
  none, none, none, none, some Direction.southEast, none, none, none]

def DIRECTIONS_03 : List (Option Direction) := [
  none, none, none, some Direction.southWest, none, none, none, some Direction.south,
  none, none, none, some Direction.southEast, none, none, none, none]

def DIRECTIONS_04 : List (Option Direction) := [
  none, none, none, none, some Direction.southWest, none, none, some Direction.south,
  none, none, some Direction.southEast, none, none, none, none, none]

def DIRECTIONS_05 : List (Option Direction) := [
  none, none, none, none, none, some Direction.southWest, none, some Direction.south,
  none, some Direction.southEast, none, none, none, none, none, none]

def DIRECTIONS_06 : List (Option Direction) := [
  none, none, none, none, none, none, some Direction.southWest, some Direction.south,
  some Direction.southEast, none, none, none, none, none, none, none]

def DIRECTIONS_07 : List (Option Direction) := [
  some Direction.west, some Direction.west, some Direction.west, some Direction.west, some Direction.west, some Direction.west, some Direction.west, none,
  some Direction.east, some Direction.east, some Direction.east, some Direction.east, some Direction.east, some Direction.east, some Direction.east, none]

def DIRECTIONS_08 : List (Option Direction) := [
  none, none, none, none, none, none, some Direction.northWest, some Direction.north,
  some Direction.northEast, none, none, none, none, none, none, none]

def DIRECTIONS_09 : List (Option Direction) := [
  none, none, none, none, none, some Direction.northWest, none, some Direction.north,
  none, some Direction.northEast, none, none, none, none, none, none]

def DIRECTIONS_10 : List (Option Direction) := [
  none, none, none, none, some Direction.northWest, none, none, some Direction.north,
  none, none, some Direction.northEast, none, none, none, none, none]

def DIRECTIONS_11 : List (Option Direction) := [
  none, none, none, some Direction.northWest, none, none, none, some Direction.north,
  none, none, none, some Direction.northEast, none, none, none, none]

def DIRECTIONS_12 : List (Option Direction) := [
  none, none, some Direction.northWest, none, none, none, none, some Direction.north,
  none, none, none, none, some Direction.northEast, none, none, none]

def DIRECTIONS_13 : List (Option Direction) := [
  none, some Direction.northWest, none, none, none, none, none, some Direction.north,
  none, none, none, none, none, some Direction.northEast, none, none]

def DIRECTIONS_14 : List (Option Direction) := [
  some Direction.northWest, none, none, none, none, none, none, some Direction.north,
  none, none, none, none, none, none, some Direction.northEast, none]

/-- `src/square.rs`: the 240-entry `DIRECTIONS` table, transliterated row by row
(16 entries per chunk, concatenated in order). -/
def DIRECTIONS : List (Option Direction) :=
  DIRECTIONS_00 ++ DIRECTIONS_01 ++ DIRECTIONS_02 ++ DIRECTIONS_03 ++ DIRECTIONS_04 ++ DIRECTIONS_05 ++ DIRECTIONS_06 ++ DIRECTIONS_07 ++ DIRECTIONS_08 ++ DIRECTIONS_09 ++ DIRECTIONS_10 ++ DIRECTIONS_11 ++ DIRECTIONS_12 ++ DIRECTIONS_13 ++ DIRECTIONS_14

/-- `Square16x8`: the expanded 0x88-style coordinate, a `u8` value. -/
abbrev Square16x8 := Nat

/-- `Square16x8::from_square`: `square + (square & !7)`. -/

def Square16x8.fromSquare (sq : Square) : Square16x8 :=
  sq.val + (sq.val &&& (255 - 7))

/-- `Square16x8::is_off_board`: `self & 0x88 != 0`. -/
def Square16x8.isOffBoard (s : Square16x8) : Bool := s &&& 0x88 != 0

/-- `Square16x8::to_square`: `None` if off board, else `(sq + (sq & 7)) >> 1`. -/
def Square16x8.toSquare (s : Square16x8) : Option Square :=
  if s.isOffBoard then none
  else if h : (s + (s &&& 7)) >>> 1 < 64 then some ⟨_, h⟩
  else none

/-- `Square16x8::vector`: `dest.wrapping_sub(from).wrapping_add(119)` in `u8`. -/
def Square16x8.vector (s dest : Square16x8) : Nat :=
  (((dest : Int) - (s : Int) + 119) % 256).toNat

/-- `Square16x8::add_dir`: wrapping 16-bit add truncated to `u8`. -/
def Square16x8.addDir (s : Square16x8) (d : Direction) : Square16x8 :=
  (((s : Int) + d.to16x8) % 256).toNat

/-- `Square16x8::direction`: `DIRECTIONS` lookup; `get_unchecked` is in
bounds for all real-square arguments, modelled as `none` out of bounds. -/
def Square16x8.direction (s dest : Square16x8) : Option Direction :=
  (DIRECTIONS.getD (s.vector dest) none)

/-- `Square::direction`. -/
def Square.direction (sq dest : Square) : Option Direction :=
  Square16x8.direction (Square16x8.fromSquare sq) (Square16x8.fromSquare dest)

/-- `Square::travel`. -/
def Square.travel (sq : Square) (d : Direction) : Option Square :=
  ((Square16x8.fromSquare sq).addDir d).toSquare

def Square.north (sq : Square) : Option Square := sq.travel .north

def Square.south (sq : Square) : Option Square := sq.travel .south

def Square.east (sq : Square) : Option Square := sq.travel .east

def Square.west (sq : Square) : Option Square := sq.travel .west

/-- `Square::relative_north`. -/
def Square.relativeNorth (sq : Square) (c : Colour) : Option Square :=
  match c with
  | .white => sq.north
  | .black => sq.south

/-- `Square::relative_south`. -/
def Square.relativeSouth (sq : Square) (c : Colour) : Option Square :=
  match c with
  | .white => sq.south
  | .black => sq.north

/-- The direction order of `KingIter` (`KING_DIR`). -/
def kingDirs : List Direction :=
  [.north, .northEast, .east, .southEast, .south, .southWest, .west, .northWest]

/-- `Square::king_attacks`: the king-step squares in `KING_DIR` order. -/
def Square.kingAttacks (sq : Square) : List Square :=
  kingDirs.filterMap sq.travel

/-- The direction order of `KnightIter` (`KNIGHT_DIR`). -/
def knightDirs : List Direction :=
  [.northNorthEast, .eastNorthEast, .eastSouthEast, .southSouthEast,
   .southSouthWest, .westSouthWest, .westNorthWest, .northNorthWest]

/-- `Square::knight_attacks`. -/
def Square.knightAttacks (sq : Square) : List Square :=
  knightDirs.filterMap sq.travel

/-- `RayIter`: successive `add_dir` steps until off board.  A ray on the
16×8 board has at most 7 on-board squares, so fuel 8 is exact. -/
def rayAttacksAux : Nat → Square16x8 → Direction → List Square
  | 0, _, _ => []
  | fuel + 1, s, d =>
    let next := s.addDir d
    if next.isOffBoard then []
    else
      match next.toSquare with
      | none => []
      | some sq => sq :: rayAttacksAux fuel next d

/-- `Square16x8::ray_attacks`. -/
def Square16x8.rayAttacks (s : Square16x8) (d : Direction) : List Square :=
  rayAttacksAux 8 s d

/-- `src/board/index.rs`: a piece identifier, 0..=31 (`PieceIndex::into_inner`). -/
abbrev PieceIndex := Fin 32

/-- `PieceIndex::is_white`: identifier bits 0..=15 are white. -/

def PieceIndex.isWhite (i : PieceIndex) : Bool := i.val ≤ 15

/-- `PieceIndex::colour`. -/
def PieceIndex.colour (i : PieceIndex) : Colour :=
  if i.isWhite then .white else .black

/-- `src/board/bitlist.rs`: a 32-bit set over piece identifiers, as a `Nat`
kept below `2^32` by construction. -/
abbrev Bitlist := Nat

namespace Bitlist

/-- `Bitlist::new`. -/
def new : Bitlist := 0

/-- `Bitlist::white`. -/
def white : Bitlist := 0x0000FFFF

/-- `Bitlist::black`. -/
def black : Bitlist := 0xFFFF0000

/-- `Bitlist::mask_from_colour`. -/
def maskFromColour : Colour → Bitlist
  | .white => white
  | .black => black

/-- `Bitlist::from_piece` / `impl From<PieceIndex> for Bitlist`: `1 << index`. -/
def fromPiece (i : PieceIndex) : Bitlist := 1 <<< i.val

/-- `Bitlist::contains`: `(self & other) != 0`. -/
def containsBits (a other : Bitlist) : Bool := a &&& other != 0

/-- `Bitlist::empty`. -/
def isEmpty (a : Bitlist) : Bool := a = 0

/-- `impl Not for Bitlist`: complement within 32 bits. -/
def inv (a : Bitlist) : Bitlist := a ^^^ 0xFFFFFFFF

/-- The ascending list of set bit indices below 32.  Rust iterates a
`Bitlist` (and `Bitlist::pop`) by repeatedly removing the lowest set bit,
which visits exactly the set bits in ascending order; this list is that
visit order. -/
def toList (a : Bitlist) : List PieceIndex :=
  (List.finRange 32).filter (fun i => a.testBit i.val)

/-- `Bitlist::count_ones`: the number of set bits (of a 32-bit value). -/
def countOnes (a : Bitlist) : Nat := a.toList.length

/-- `Bitlist::peek` / `peek_nonzero`: the lowest set bit, if any
(`peek_nonzero` is UB on empty input; its callers guarantee non-empty). -/
def peek (a : Bitlist) : Option PieceIndex := a.toList.head?

end Bitlist

/-- `src/board/piecemask.rs`: three 32-bit masks encoding each live piece's kind. -/
structure Piecemask where
  pbq : Bitlist
  nbk : Bitlist
  rqk : Bitlist

namespace Piecemask

/-- `Piecemask::new`. -/
def new : Piecemask := ⟨0, 0, 0⟩

/-- `Piecemask::empty`. -/
def emptyBits (m : Piecemask) : Bitlist := (m.pbq ||| m.nbk ||| m.rqk).inv

/-- `Piecemask::occupied`. -/
def occupied (m : Piecemask) : Bitlist := m.emptyBits.inv

/-- `Piecemask::pawns`. -/
def pawns (m : Piecemask) : Bitlist := m.pbq &&& m.nbk.inv &&& m.rqk.inv

/-- `Piecemask::knights`. -/
def knights (m : Piecemask) : Bitlist := m.pbq.inv &&& m.nbk &&& m.rqk.inv

/-- `Piecemask::bishops`. -/
def bishops (m : Piecemask) : Bitlist := m.pbq &&& m.nbk

/-- `Piecemask::rooks`. -/
def rooks (m : Piecemask) : Bitlist := m.pbq.inv &&& m.nbk.inv &&& m.rqk

/-- `Piecemask::queens`. -/
def queens (m : Piecemask) : Bitlist := m.pbq &&& m.rqk

/-- `Piecemask::kings`. -/
def kings (m : Piecemask) : Bitlist := m.nbk &&& m.rqk

/-- `Piecemask::white`. -/
def whitePieces (m : Piecemask) : Bitlist := m.occupied &&& Bitlist.white

/-- `Piecemask::black`. -/
def blackPieces (m : Piecemask) : Bitlist := m.occupied &&& Bitlist.black

/-- `Piecemask::pieces_of_colour`. -/
def piecesOfColour (m : Piecemask) : Colour → Bitlist
  | Colour.white => m.whitePieces
  | Colour.black => m.blackPieces

/-- `Piecemask::piece`: decode the three kind bits of one identifier. -/
def piece (m : Piecemask) (i : PieceIndex) : Option Piece :=
  let pbq := Bitlist.containsBits m.pbq (Bitlist.fromPiece i)
  let nbk := Bitlist.containsBits m.nbk (Bitlist.fromPiece i)
  let rqk := Bitlist.containsBits m.rqk (Bitlist.fromPiece i)
  match pbq, nbk, rqk with
  | true, false, false => some .pawn
  | false, true, false => some .knight
  | true, true, false => some .bishop
  | false, false, true => some .rook
  | true, false, true => some .queen
  | false, true, true => some .king
  | _, _, _ => none

/-- `Piecemask::add_piece`: allocate the lowest free identifier of the colour
and set its kind bits.  The Rust `peek_nonzero` is UB when the colour already
has 16 live pieces; modelled by returning the mask unchanged with identifier 0
(callers never reach this). -/
def addPiece (m : Piecemask) (p : Piece) (c : Colour) : Piecemask × PieceIndex :=
  match (m.emptyBits &&& Bitlist.maskFromColour c).peek with
  | none => (m, 0)
  | some pieceIndex =>
    let yes := Bitlist.fromPiece pieceIndex
    let no := Bitlist.new
    let bits :=
      match p with
      | Piece.pawn => (yes, no, no)
      | Piece.knight => (no, yes, no)
      | Piece.bishop => (yes, yes, no)
      | Piece.rook => (no, no, yes)
      | Piece.queen => (yes, no, yes)
      | Piece.king => (no, yes, yes)
    (⟨m.pbq ||| bits.1, m.nbk ||| bits.2.1, m.rqk ||| bits.2.2⟩, pieceIndex)

/-- `Piecemask::remove_piece`. -/
def removePiece (m : Piecemask) (i : PieceIndex) : Piecemask :=
  ⟨m.pbq &&& (Bitlist.fromPiece i).inv,
   m.nbk &&& (Bitlist.fromPiece i).inv,
   m.rqk &&& (Bitlist.fromPiece i).inv⟩

end Piecemask

/-- `src/board/piecelist.rs`: `PieceIndex → Square` map (the underlying
`[Option<Square>; 32]`). -/
abbrev Piecelist := PieceIndex → Option Square

namespace Piecelist

/-- `Piecelist::new`. -/
def new : Piecelist := fun _ => none

/-- `Piecelist::get`: `unwrap_or(Square::from_u8_unchecked(0))` — a dead
identifier yields square 0 (a1) rather than a fault. -/
def get (pl : Piecelist) (i : PieceIndex) : Square :=
  (pl i).getD ⟨0, by omega⟩

/-- `Piecelist::add_piece` (the debug assert is release-disabled). -/
def addPiece (pl : Piecelist) (i : PieceIndex) (sq : Square) : Piecelist :=
  fun j => if j = i then some sq else pl j

/-- `Piecelist::remove_piece` (the release build only clears the slot). -/
def removePiece (pl : Piecelist) (i : PieceIndex) : Piecelist :=
  fun j => if j = i then none else pl j

/-- `Piecelist::move_piece`. -/
def movePiece (pl : Piecelist) (i : PieceIndex) (sq : Square) : Piecelist :=
  fun j => if j = i then some sq else pl j

end Piecelist

/-- `src/board/index.rs`: `Square → Option PieceIndex` map (`PieceIndexArray`). -/
abbrev PieceIndexArray := Square → Option PieceIndex

namespace PieceIndexArray

/-- `PieceIndexArray::new`. -/
def new : PieceIndexArray := fun _ => none

/-- `PieceIndexArray::add_piece`. -/
def addPiece (ia : PieceIndexArray) (i : PieceIndex) (sq : Square) : PieceIndexArray :=
  fun s => if s = sq then some i else ia s

/-- `PieceIndexArray::remove_piece`. -/
def removePiece (ia : PieceIndexArray) (_i : PieceIndex) (sq : Square) : PieceIndexArray :=
  fun s => if s = sq then none else ia s

/-- `PieceIndexArray::move_piece`. -/
def movePiece (ia : PieceIndexArray) (i : PieceIndex) (fromSq destSq : Square) :
    PieceIndexArray :=
  fun s => if s = destSq then some i else if s = fromSq then none else ia s

end PieceIndexArray

/-- `src/board/bitlist.rs`: the attack table, `Square → Bitlist`
(`BitlistArray`). -/
abbrev BitlistArray := Square → Bitlist

namespace BitlistArray

/-- `BitlistArray::new`. -/
def new : BitlistArray := fun _ => 0

/-- `BitlistArray::clear`. -/
def clear (ba : BitlistArray) (sq : Square) : BitlistArray :=
  fun s => if s = sq then 0 else ba s

/-- `BitlistArray::add_piece` (debug assert release-disabled). -/
def addPiece (ba : BitlistArray) (sq : Square) (i : PieceIndex) : BitlistArray :=
  fun s => if s = sq then ba s ||| Bitlist.fromPiece i else ba s

/-- `BitlistArray::remove_piece` (debug assert release-disabled). -/
def removePiece (ba : BitlistArray) (sq : Square) (i : PieceIndex) : BitlistArray :=
  fun s => if s = sq then ba s &&& (Bitlist.fromPiece i).inv else ba s

end BitlistArray

/-- `src/board/data.rs`: the chess board representation. -/
structure BoardData where
  bitlist : BitlistArray
  piecelist : Piecelist
  index : PieceIndexArray
  piecemask : Piecemask

namespace BoardData

/-- `BoardData::new`. -/
def new : BoardData :=
  ⟨BitlistArray.new, Piecelist.new, PieceIndexArray.new, Piecemask.new⟩

/-- `BoardData::piece_index`. -/
def pieceIndex (d : BoardData) (sq : Square) : Option PieceIndex := d.index sq

/-- `BoardData::attacks_to`. -/
def attacksTo (d : BoardData) (sq : Square) (c : Colour) : Bitlist :=
  d.bitlist sq &&& Bitlist.maskFromColour c

/-- `BoardData::square_of_piece`. -/
def squareOfPiece (d : BoardData) (i : PieceIndex) : Square := d.piecelist.get i

/-- `BoardData::has_piece`. -/
def hasPiece (d : BoardData) (sq : Square) : Bool := (d.index sq).isSome

/-- `BoardData::pawns`. -/
def pawns (d : BoardData) : Bitlist := d.piecemask.pawns

/-- `BoardData::knights`. -/
def knights (d : BoardData) : Bitlist := d.piecemask.knights

/-- `BoardData::bishops`. -/
def bishops (d : BoardData) : Bitlist := d.piecemask.bishops

/-- `BoardData::rooks`. -/
def rooks (d : BoardData) : Bitlist := d.piecemask.rooks

/-- `BoardData::queens`. -/
def queens (d : BoardData) : Bitlist := d.piecemask.queens

/-- `BoardData::kings`. -/
def kings (d : BoardData) : Bitlist := d.piecemask.kings

/-- `BoardData::pieces`. -/
def pieces (d : BoardData) : Bitlist := d.piecemask.occupied

/-- `BoardData::pieces_of_colour`. -/
def piecesOfColour (d : BoardData) (c : Colour) : Bitlist :=
  d.piecemask.piecesOfColour c

/-- `BoardData::piece_from_bit`: the Rust `expect` faults on an identifier
with no valid kind bits; modelled with a `Pawn` default the theorems'
hypotheses rule out. -/
def pieceFromBit (d : BoardData) (i : PieceIndex) : Piece :=
  (d.piecemask.piece i).getD .pawn

/-- `BoardData::piece_from_square`. -/
def pieceFromSquare (d : BoardData) (sq : Square) : Option Piece :=
  (d.index sq).bind d.piecemask.piece

/-- `BoardData::colour_from_square`. -/
def colourFromSquare (d : BoardData) (sq : Square) : Option Colour :=
  (d.index sq).map PieceIndex.colour

/-- The `update` closure of `BoardData::update_attacks`. -/
def attackUpdate (add : Bool) (bit : PieceIndex) (ba : BitlistArray) (dest : Square) :
    BitlistArray :=
  if add then ba.addPiece dest bit else ba.removePiece dest bit

/-- The while-let body of the `slide` closure of `update_attacks`: walk from
the square `cur`, stamping each square, continuing past empty squares only;
`iters > 6` caps the walk at 7 stamps (a full ray). -/
def slideWalk (ia : PieceIndexArray) (add : Bool) (bit : PieceIndex) (dir : Direction) :
    Nat → BitlistArray → Option Square → BitlistArray
  | 0, ba, _ => ba
  | _ + 1, ba, none => ba
  | fuel + 1, ba, some cur =>
    slideWalk ia add bit dir fuel (attackUpdate add bit ba cur)
      (if (ia cur).isNone then cur.travel dir else none)

/-- The `slide` closure of `update_attacks`, including the `skip_dir` guard. -/
def slideDir (ia : PieceIndexArray) (square : Square) (add : Bool) (bit : PieceIndex)
    (skipDir : Option Direction) (ba : BitlistArray) (dir : Direction) : BitlistArray :=
  match skipDir with
  | some sd =>
    if sd = dir || sd = dir.opposite then ba
    else slideWalk ia add bit dir 7 ba (square.travel dir)
  | none => slideWalk ia add bit dir 7 ba (square.travel dir)

/-- The `leap` closure of `update_attacks`. -/
def leapDir (square : Square) (add : Bool) (bit : PieceIndex)
    (ba : BitlistArray) (dir : Direction) : BitlistArray :=
  match square.travel dir with
  | some dest => attackUpdate add bit ba dest
  | none => ba

/-- `BoardData::update_attacks`: stamp or retract the attack pattern of
`piece` (identifier `bit`) radiating from `square`. -/
def updateAttacks (d : BoardData) (square : Square) (bit : PieceIndex) (piece : Piece)
    (add : Bool) (skipDir : Option Direction) : BoardData :=
  let leap := leapDir square add bit
  let slide := slideDir d.index square add bit skipDir
  let ba := d.bitlist
  let ba :=
    match piece with
    | .pawn =>
      if bit.isWhite then
        [Direction.northEast, Direction.northWest].foldl leap ba
      else
        [Direction.southEast, Direction.southWest].foldl leap ba
    | .knight => knightDirs.foldl leap ba
    | .king => kingDirs.foldl leap ba
    | .bishop =>
      [Direction.northEast, Direction.southEast,
       Direction.southWest, Direction.northWest].foldl slide ba
    | .rook =>
      [Direction.north, Direction.east, Direction.south, Direction.west].foldl slide ba
    | .queen =>
      ([Direction.north, Direction.east, Direction.south, Direction.west,
        Direction.northEast, Direction.southEast,
        Direction.southWest, Direction.northWest]).foldl slide ba
  { d with bitlist := ba }

/-- The per-ray walk of `BoardData::update_sliders`: stamp or retract along
the ray, stopping after the first occupied square (inclusive). -/
def sliderRayWalk (ia : PieceIndexArray) (add : Bool) (piece : PieceIndex) :
    BitlistArray → List Square → BitlistArray
  | ba, [] => ba
  | ba, dest :: rest =>
    let ba := if add then ba.addPiece dest piece else ba.removePiece dest piece
    if (ia dest).isSome then ba else sliderRayWalk ia add piece ba rest

/-- `BoardData::update_sliders`: extend or retract the rays of every slider
currently attacking `square`, in ascending identifier order. -/
def updateSliders (d : BoardData) (square : Square) (add : Bool) : BoardData :=
  let sliders :=
    d.bitlist square &&& (d.piecemask.bishops ||| d.piecemask.rooks ||| d.piecemask.queens)
  let square16 := Square16x8.fromSquare square
  let ba := sliders.toList.foldl (fun ba piece =>
    let attacker := Square16x8.fromSquare (d.squareOfPiece piece)
    match attacker.direction square16 with
    | some direction => sliderRayWalk d.index add piece ba (square16.rayAttacks direction)
    | none => ba) d.bitlist
  { d with bitlist := ba }

/-- `BoardData::add_piece`. -/
def addPiece (d : BoardData) (piece : Piece) (colour : Colour) (square : Square)
    (update : Bool) : BoardData :=
  let pmi := d.piecemask.addPiece piece colour
  let d := { d with piecemask := pmi.1,
                    piecelist := d.piecelist.addPiece pmi.2 square,
                    index := d.index.addPiece pmi.2 square }
  if update then
    let d := d.updateAttacks square pmi.2 piece true none
    d.updateSliders square false
  else d

/-- `BoardData::remove_piece`. -/
def removePiece (d : BoardData) (pieceIdx : PieceIndex) (update : Bool) : BoardData :=
  let square := d.squareOfPiece pieceIdx
  let piece := d.pieceFromBit pieceIdx
  let d := { d with piecemask := d.piecemask.removePiece pieceIdx,
                    piecelist := d.piecelist.removePiece pieceIdx,
                    index := d.index.removePiece pieceIdx square }
  if update then
    let d := d.updateAttacks square pieceIdx piece false none
    d.updateSliders square true
  else d

/-- `BoardData::move_piece`.  The Rust `expect` faults when `from_square` is
empty; modelled as a no-op the callers never reach. -/
def movePiece (d : BoardData) (fromSquare toSquare : Square) : BoardData :=
  match d.index fromSquare with
  | none => d
  | some pieceIdx =>
    let piece := d.pieceFromBit pieceIdx
    let slideDir := (fromSquare.direction toSquare).bind (fun dir =>
      if piece = .bishop || piece = .rook || piece = .queen then some dir else none)
    let d := d.updateAttacks fromSquare pieceIdx piece false slideDir
    let d := d.updateSliders fromSquare true
    let d := if slideDir.isSome
      then { d with bitlist := d.bitlist.addPiece fromSquare pieceIdx } else d
    let d := { d with piecelist := d.piecelist.movePiece pieceIdx toSquare,
                      index := d.index.movePiece pieceIdx fromSquare toSquare }
    let d := if slideDir.isSome
      then { d with bitlist := d.bitlist.removePiece toSquare pieceIdx } else d
    let d := d.updateAttacks toSquare pieceIdx piece true slideDir
    d.updateSliders toSquare false

/-- `BoardData::rebuild_attacks`. -/
def rebuildAttacks (d : BoardData) : BoardData :=
  let d := (List.finRange 64).foldl (fun d sq => { d with bitlist := d.bitlist.clear sq }) d
  (List.finRange 64).foldl (fun d sq =>
    match d.index sq with
    | some bit => d.updateAttacks sq bit (d.pieceFromBit bit) true none
    | none => d) d

end BoardData

/-- `src/chessmove.rs`: move kind. -/
inductive MoveType where
  | normal
  | capture
  | castle
  | doublePush
  | enPassant
  | promotion
  | capturePromotion
deriving DecidableEq, Repr

/-- `src/chessmove.rs`: a move.  The Rust field `from` is a Lean keyword,
so it is named `fromSq` here. -/
structure Move where
  fromSq : Square
  dest : Square
  kind : MoveType
  prom : Option Piece
deriving DecidableEq, Repr

/-- `Move::new`. -/
def Move.new (fromSq destSq : Square) (kind : MoveType) (prom : Option Piece) : Move :=
  ⟨fromSq, destSq, kind, prom⟩

/-- `src/board/mod.rs`: the Zobrist key table.  `piece` is indexed
`[side as usize][piece as usize][square]`; the Rust keys are random `u64`s,
modelled as arbitrary naturals (XOR never overflows). -/
structure Zobrist where
  piece : Fin 2 → Fin 6 → Fin 64 → Nat
  side : Nat
  ep : Fin 8 → Nat
  castling : Fin 4 → Nat

/-- `zobrist.piece[colour as usize][piece as usize][square]`. -/
def Zobrist.pieceKey (z : Zobrist) (c : Colour) (p : Piece) (sq : Square) : Nat :=
  z.piece c.toIdx p.discr sq

/-- `src/board/mod.rs`: a chess position. `castle` is the Rust tuple
`(bool, bool, bool, bool)` = (white kingside, white queenside,
black kingside, black queenside), kept as four fields `castle0 .. castle3`. -/
structure Board where
  data : BoardData
  side : Colour
  castle0 : Bool
  castle1 : Bool
  castle2 : Bool
  castle3 : Bool
  ep : Option Square
  hash : Nat

namespace Board

/-- `Board::new`. -/
def new : Board := ⟨BoardData.new, .white, false, false, false, false, none, 0⟩

/-- `Board::piece_from_square`. -/
def pieceFromSquare (b : Board) (sq : Square) : Option Piece :=
  b.data.pieceFromSquare sq

/-- `Board::square_of_piece`. -/
def squareOfPiece (b : Board) (i : PieceIndex) : Square := b.data.squareOfPiece i

/-- `Board::piece_from_bit`. -/
def pieceFromBit (b : Board) (i : PieceIndex) : Piece := b.data.pieceFromBit i

/-- `Board::recalculate_hash` (`src/board/mod.rs` lines 1320-1349).
Note: the en-passant key is indexed by `Rank::from(ep)` here, while the
incremental update in `set_ep` uses `File::from(ep)`. -/
def recalculateHash (b : Board) (z : Zobrist) : Board :=
  let hash := b.data.pieces.toList.foldl (fun hash piece =>
    hash ^^^ z.pieceKey piece.colour (b.pieceFromBit piece) (b.squareOfPiece piece)) 0
  let hash := match b.ep with
    | some ep => hash ^^^ z.ep ep.rank
    | none => hash
  let hash := if b.castle0 then hash ^^^ z.castling 0 else hash
  let hash := if b.castle1 then hash ^^^ z.castling 1 else hash
  let hash := if b.castle2 then hash ^^^ z.castling 2 else hash
  let hash := if b.castle3 then hash ^^^ z.castling 3 else hash
  let hash := if b.side = .black then hash ^^^ z.side else hash
  { b with hash := hash }

/-- `Board::set_ep` (`src/board/mod.rs` lines 328-336): XOR out the old
en-passant key (by file), set the square, XOR in the new key (by file). -/
def setEp (b : Board) (z : Zobrist) (ep : Option Square) : Board :=
  let b := match b.ep with
    | some old => { b with hash := b.hash ^^^ z.ep old.file }
    | none => b
  let b := { b with ep := ep }
  match b.ep with
  | some nw => { b with hash := b.hash ^^^ z.ep nw.file }
  | none => b

/-- The `match m.kind` dispatch of `Board::make` (`src/board/mod.rs` lines
347-439): mutate the piece sets and attack table, XOR the piece keys, and
update the en-passant state.  Rust `unwrap`s on malformed moves fault; those
arms are modelled as leaving the board unchanged (callers pass only moves
from `generate`). -/
def makeDispatch (b : Board) (m : Move) (z : Zobrist) : Board :=
  match m.kind with
  | .normal =>
    match b.pieceFromSquare m.fromSq with
    | none => b
    | some piece =>
      let b := { b with data := b.data.movePiece m.fromSq m.dest }
      let b := { b with hash := b.hash ^^^ z.pieceKey b.side piece m.fromSq
                                       ^^^ z.pieceKey b.side piece m.dest }
      b.setEp z none
  | .doublePush =>
    match b.pieceFromSquare m.fromSq with
    | none => b
    | some piece =>
      let b := { b with data := b.data.movePiece m.fromSq m.dest }
      let b := { b with hash := b.hash ^^^ z.pieceKey b.side piece m.fromSq
                                       ^^^ z.pieceKey b.side piece m.dest }
      b.setEp z (m.fromSq.relativeNorth b.side)
  | .capture =>
    match b.data.pieceIndex m.dest, b.pieceFromSquare m.fromSq,
          b.pieceFromSquare m.dest with
    | some pieceIndex, some movingPiece, some capturedPiece =>
      let b := { b with data := b.data.removePiece pieceIndex true }
      let b := { b with data := b.data.movePiece m.fromSq m.dest }
      let b := { b with hash := b.hash ^^^ z.pieceKey b.side movingPiece m.fromSq
                                       ^^^ z.pieceKey b.side movingPiece m.dest
                                       ^^^ z.pieceKey b.side.not capturedPiece m.dest }
      b.setEp z none
    | _, _, _ => b
  | .castle =>
    let rookSquares : Option (Square × Square) :=
      if m.fromSq < m.dest then
        match m.dest.east, m.dest.west with
        | some rookFrom, some rookTo => some (rookFrom, rookTo)
        | _, _ => none
      else
        match m.dest.west.bind Square.west, m.dest.east with
        | some rookFrom, some rookTo => some (rookFrom, rookTo)
        | _, _ => none
    match rookSquares with
    | none => b
    | some rooksq =>
      let b := { b with data := b.data.movePiece rooksq.1 rooksq.2 }
      let b := { b with hash := b.hash ^^^ z.pieceKey b.side .rook rooksq.1
                                       ^^^ z.pieceKey b.side .rook rooksq.2 }
      let b := { b with data := b.data.movePiece m.fromSq m.dest }
      let b := { b with hash := b.hash ^^^ z.pieceKey b.side .king m.fromSq
                                       ^^^ z.pieceKey b.side .king m.dest }
      b.setEp z none
  | .enPassant =>
    match b.ep.bind (fun e => e.relativeSouth b.side) with
    | none => b
    | some targetSquare =>
      match b.data.pieceIndex targetSquare with
      | none => b
      | some targetPiece =>
        let b := { b with data := b.data.removePiece targetPiece true }
        let b := { b with data := b.data.movePiece m.fromSq m.dest }
        let b := { b with hash := b.hash ^^^ z.pieceKey b.side .pawn m.fromSq
                                         ^^^ z.pieceKey b.side .pawn m.dest
                                         ^^^ z.pieceKey b.side.not .pawn targetSquare }
        b.setEp z none
  | .promotion =>
    match b.data.pieceIndex m.fromSq, m.prom with
    | some pieceIndex, some prom =>
      let b := { b with data := b.data.removePiece pieceIndex true }
      let b := { b with data := b.data.addPiece prom b.side m.dest true }
      let b := { b with hash := b.hash ^^^ z.pieceKey b.side .pawn m.fromSq
                                       ^^^ z.pieceKey b.side prom m.dest }
      b.setEp z none
    | _, _ => b
  | .capturePromotion =>
    match b.data.pieceIndex m.fromSq, b.data.pieceIndex m.dest,
          b.pieceFromSquare m.dest, m.prom with
    | some sourcePiece, some targetPiece, some capturedPiece, some prom =>
      let b := { b with data := b.data.removePiece sourcePiece true }
      let b := { b with data := b.data.removePiece targetPiece true }
      let b := { b with data := b.data.addPiece prom b.side m.dest true }
      let b := { b with hash := b.hash ^^^ z.pieceKey b.side .pawn m.fromSq
                                       ^^^ z.pieceKey b.side prom m.dest
                                       ^^^ z.pieceKey b.side.not capturedPiece m.dest }
      b.setEp z none
    | _, _, _, _ => b

end Board

/-- The corner and king squares used by `Board::make` (a1 a8 e1 e8 h1 h8). -/
def sqA1 : Square := Square.fromRankFile 0 0

def sqA8 : Square := Square.fromRankFile 7 0

def sqE1 : Square := Square.fromRankFile 0 4

def sqE8 : Square := Square.fromRankFile 7 4

def sqH1 : Square := Square.fromRankFile 0 7

def sqH8 : Square := Square.fromRankFile 7 7

namespace Board

/-- The `if m.from == e1 { .. }` block of `Board::make` (lines 448-457):
revoke both white rights when the king square is the move's source. -/
def blockE1 (b : Board) (m : Move) (z : Zobrist) : Board :=
  if m.fromSq = sqE1 then
    let b := if b.castle0 then
        { b with castle0 := false, hash := b.hash ^^^ z.castling 0 } else b
    if b.castle1 then
        { b with castle1 := false, hash := b.hash ^^^ z.castling 1 } else b
  else b

/-- The `if m.from == e8 { .. }` block of `Board::make` (lines 459-468). -/
def blockE8 (b : Board) (m : Move) (z : Zobrist) : Board :=
  if m.fromSq = sqE8 then
    let b := if b.castle2 then
        { b with castle2 := false, hash := b.hash ^^^ z.castling 2 } else b
    if b.castle3 then
        { b with castle3 := false, hash := b.hash ^^^ z.castling 3 } else b
  else b

/-- The `(m.from == h1 || m.dest == h1) && b.castle.0` block of `Board::make`
(lines 470-473). -/
def blockH1 (b : Board) (m : Move) (z : Zobrist) : Board :=
  if (m.fromSq = sqH1 || m.dest = sqH1) && b.castle0 then
    { b with castle0 := false, hash := b.hash ^^^ z.castling 0 } else b

/-- The `(m.from == a1 || m.dest == a1) && b.castle.1` block of `Board::make`
(lines 475-478). -/
def blockA1 (b : Board) (m : Move) (z : Zobrist) : Board :=
  if (m.fromSq = sqA1 || m.dest = sqA1) && b.castle1 then
    { b with castle1 := false, hash := b.hash ^^^ z.castling 1 } else b

/-- The `(m.from == h8 || m.dest == h8) && b.castle.2` block of `Board::make`
(lines 480-483). -/
def blockH8 (b : Board) (m : Move) (z : Zobrist) : Board :=
  if (m.fromSq = sqH8 || m.dest = sqH8) && b.castle2 then
    { b with castle2 := false, hash := b.hash ^^^ z.castling 2 } else b

/-- The `(m.from == a8 || m.dest == a8) && b.castle.3` block of `Board::make`
(lines 485-488). -/
def blockA8 (b : Board) (m : Move) (z : Zobrist) : Board :=
  if (m.fromSq = sqA8 || m.dest = sqA8) && b.castle3 then
    { b with castle3 := false, hash := b.hash ^^^ z.castling 3 } else b

/-- The castling-rights and side-to-move stage of `Board::make` (lines
441-492), in source order. -/
def makeRights (b : Board) (m : Move) (z : Zobrist) : Board :=
  let b := blockE1 b m z
  let b := blockE8 b m z
  let b := blockH1 b m z
  let b := blockA1 b m z
  let b := blockH8 b m z
  let b := blockA8 b m z
  { b with side := b.side.not, hash := b.hash ^^^ z.side }

/-- `Board::make` (`src/board/mod.rs` lines 345-493): dispatch on the move
kind, then revoke the castling rights touched by the move (XORing out their
keys), then flip the side to move and XOR the side key. -/
def make (b : Board) (m : Move) (z : Zobrist) : Board :=
  makeRights (makeDispatch b m z) m z

/-- `Board::make_null` (`src/board/mod.rs` lines 1360-1366): flip the side,
clear en passant (without touching the en-passant hash key), XOR the side key. -/
def makeNull (b : Board) (z : Zobrist) : Board :=
  { b with side := b.side.not, ep := none, hash := b.hash ^^^ z.side }

/-- `Board::in_check`. -/
def inCheck (b : Board) : Bool :=
  match (b.data.kings &&& Bitlist.maskFromColour b.side).peek with
  | some kingIndex =>
    !((b.data.attacksTo (b.data.squareOfPiece kingIndex) b.side.not).isEmpty)
  | none => false

end Board

/-- Outcome of `Board::from_fen_bytes`: the Rust function returns
`Option<Board>`, but can also panic (out-of-bounds indexing or `unwrap`),
which its doc comment documents ("Panics when invalid FEN is input").
`fault` models the panic, `reject` models `None`. -/
inductive FenResult where
  | fault
  | reject
  | parsed (b : Board)

/-- Intermediate state of the FEN parsing loops: board, cursor `idx`, and
the current byte `c`. -/
inductive FenStep where
  | fault
  | reject
  | ok (b : Board) (idx : Nat) (c : Nat)

/-- `u8::to_ascii_lowercase`. -/
def byteToLower (c : Nat) : Nat := if 0x41 ≤ c && c ≤ 0x5A then c + 0x20 else c

/-- `u8::is_ascii_uppercase`. -/
def byteIsUpper (c : Nat) : Bool := 0x41 ≤ c && c ≤ 0x5A

/-- The piece-letter match of `from_fen_bytes` (on the lowercased byte). -/
def pieceOfByte (c : Nat) : Option Piece :=
  if byteToLower c = 0x6B then some .king
  else if byteToLower c = 0x71 then some .queen
  else if byteToLower c = 0x72 then some .rook
  else if byteToLower c = 0x62 then some .bishop
  else if byteToLower c = 0x6E then some .knight
  else if byteToLower c = 0x70 then some .pawn
  else none

/-- The inner `while file <= 7` loop of `from_fen_bytes` for one rank.
Each iteration advances `file` by at least one, so there are at most 8 body
iterations plus the final loop-exit check; fuel 9 is exact and the
fuel-exhaustion arm is unreachable.  Reading past the end of the input is
the Rust `fen[idx]` panic, modelled as `fault`. -/
def fenFileLoop (fen : List Nat) : Nat → Board → Nat → Nat → Nat → Nat → FenStep
  | 0, _, _, _, _, _ => .fault
  | fuel + 1, b, rank, file, idx, c =>
    if h : file ≤ 7 then
      if 0x31 ≤ c && c ≤ 0x38 then
        match fen.get? (idx + 1) with
        | none => .fault
        | some c2 => fenFileLoop fen fuel b rank (file + (c - 0x30)) (idx + 1) c2
      else
        match pieceOfByte c with
        | none => .reject
        | some piece =>
          let colour := if byteIsUpper c then Colour.white else Colour.black
          if hr : rank ≤ 7 then
            let square := Square.fromRankFile ⟨rank, by omega⟩ ⟨file, by omega⟩
            let b := { b with data := b.data.addPiece piece colour square false }
            match fen.get? (idx + 1) with
            | none => .fault
            | some c2 => fenFileLoop fen fuel b rank (file + 1) (idx + 1) c2
          else .fault
    else .ok b idx c

/-- The outer `for rank in (0..=7).rev()` loop of `from_fen_bytes`;
between ranks the separator byte is skipped (it is never validated). -/
def fenRankLoop (fen : List Nat) : List Nat → Board → Nat → Nat → FenStep
  | [], b, idx, c => .ok b idx c
  | rank :: rest, b, idx, c =>
    match fenFileLoop fen 9 b rank 0 idx c with
    | .fault => .fault
    | .reject => .reject
    | .ok b idx c =>
      match rest with
      | [] => .ok b idx c
      | _ :: _ =>
        match fen.get? (idx + 1) with
        | none => .fault
        | some c2 => fenRankLoop fen rest b (idx + 1) c2

/-- The castling-rights field of `from_fen_bytes`: each matched flag
advances the cursor and re-reads `c` (the final `q` flag does not re-read). -/
def fenCastleField (fen : List Nat) (b : Board) (idx : Nat) (c : Nat) : FenStep :=
  if c = 0x2D then .ok b (idx + 1) c
  else
    let step1 : FenStep :=
      if c = 0x4B then
        match fen.get? (idx + 1) with
        | none => .fault
        | some c2 => .ok { b with castle0 := true } (idx + 1) c2
      else .ok b idx c
    match step1 with
    | .ok b idx c =>
      let step2 : FenStep :=
        if c = 0x51 then
          match fen.get? (idx + 1) with
          | none => .fault
          | some c2 => .ok { b with castle1 := true } (idx + 1) c2
        else .ok b idx c
      match step2 with
      | .ok b idx c =>
        let step3 : FenStep :=
          if c = 0x6B then
            match fen.get? (idx + 1) with
            | none => .fault
            | some c2 => .ok { b with castle2 := true } (idx + 1) c2
          else .ok b idx c
        match step3 with
        | .ok b idx c =>
          if c = 0x71 then .ok { b with castle3 := true } (idx + 1) c
          else .ok b idx c
        | s => s
      | s => s
    | s => s

/-- The en-passant field of `from_fen_bytes`.  `File::try_from(c - b'a')`
/ `Rank::try_from(c - b'1')` wrap in `u8` and their `unwrap` panics unless
the value is 0..=7. -/
def fenEpField (fen : List Nat) (b : Board) (idx : Nat) (c : Nat) : FenStep :=
  if c = 0x2D then .ok { b with ep := none } idx c
  else
    let fv := (c + 256 - 0x61) % 256
    if hf : fv ≤ 7 then
      match fen.get? (idx + 1) with
      | none => .fault
      | some c2 =>
        let rv := (c2 + 256 - 0x31) % 256
        if hr : rv ≤ 7 then
          .ok { b with ep := some (Square.fromRankFile ⟨rv, by omega⟩ ⟨fv, by omega⟩) }
            (idx + 1) c2
        else .fault
    else .fault

/-- `Board::from_fen_bytes` (`src/board/mod.rs` lines 229-326). -/
def Board.fromFenBytes (fen : List Nat) (z : Zobrist) : FenResult :=
  match fen.get? 0 with
  | none => .fault
  | some c =>
    match fenRankLoop fen [7, 6, 5, 4, 3, 2, 1, 0] Board.new 0 c with
    | .fault => .fault
    | .reject => .reject
    | .ok b idx _ =>
      match fen.get? (idx + 1) with
      | none => .fault
      | some c =>
        let idx := idx + 1
        let side : Option Colour :=
          if c = 0x77 then some Colour.white
          else if c = 0x62 then some Colour.black
          else none
        match side with
        | none => .reject
        | some side =>
          let b := { b with side := side }
          match fen.get? (idx + 2) with
          | none => .fault
          | some c =>
            let idx := idx + 2
            let b := { b with castle0 := false, castle1 := false,
                              castle2 := false, castle3 := false }
            match fenCastleField fen b idx c with
            | .fault => .fault
            | .reject => .reject
            | .ok b idx _ =>
              match fen.get? (idx + 1) with
              | none => .fault
              | some c =>
                match fenEpField fen b (idx + 1) c with
                | .fault => .fault
                | .reject => .reject
                | .ok b _ _ =>
                  let b := b.recalculateHash z
                  let b := { b with data := b.data.rebuildAttacks }
                  .parsed b

/-- `src/board/mod.rs`: pin information. -/
structure PinInfo where
  pins : PieceIndex → Option Direction
  enpassantPinned : Bitlist

/-- `PinInfo::new`. -/
def PinInfo.new : PinInfo := ⟨fun _ => none, Bitlist.new⟩

namespace Board

/-- The blocker scan of `discover_pinned_pieces`: walk the ray from the
pinner towards the king, stopping at the king's square, recording at most
one friendly and one enemy blocker; a second blocker of either colour
clears both and stops. -/
def pinScan (d : BoardData) (side : Colour) (kingSquare : Square) :
    List Square → Option PieceIndex → Option PieceIndex →
    Option PieceIndex × Option PieceIndex
  | [], fb, eb => (fb, eb)
  | square :: rest, fb, eb =>
    if square = kingSquare then (fb, eb)
    else
      match d.pieceIndex square with
      | none => pinScan d side kingSquare rest fb eb
      | some pieceIdx =>
        if d.colourFromSquare square = some side.not then
          match eb with
          | some _ => (none, none)
          | none => pinScan d side kingSquare rest fb (some pieceIdx)
        else
          match fb with
          | some _ => (none, none)
          | none => pinScan d side kingSquare rest (some pieceIdx) eb

/-- `Board::discover_pinned_pieces` (`src/board/mod.rs` lines 524-605).
A position without a king for the side to move is UB in Rust
(`peek_nonzero`); modelled as no pins. -/
def discoverPinnedPieces (b : Board) : PinInfo :=
  let sliders := b.data.bishops ||| b.data.rooks ||| b.data.queens
  match (b.data.kings &&& Bitlist.maskFromColour b.side).peek with
  | none => PinInfo.new
  | some kingIndex =>
    let kingSquare := b.data.squareOfPiece kingIndex
    let kingSquare16 := Square16x8.fromSquare kingSquare
    (b.data.piecesOfColour b.side.not &&& sliders).toList.foldl
      (fun info possiblePinner =>
        let pinnerSquare := b.data.squareOfPiece possiblePinner
        let pinnerSquare16 := Square16x8.fromSquare pinnerSquare
        let pinnerType := b.data.pieceFromBit possiblePinner
        match pinnerSquare16.direction kingSquare16 with
        | none => info
        | some pinnerKingDir =>
          if !pinnerKingDir.validForSlider pinnerType then info
          else
            match pinScan b.data b.side kingSquare
                (pinnerSquare16.rayAttacks pinnerKingDir) none none with
            | (none, _) => info
            | (some blocker, none) =>
              { info with pins := fun i =>
                  if i = blocker then some pinnerKingDir else info.pins i }
            | (some friendlyBlocker, some enemyBlocker) =>
              if b.data.pieceFromBit friendlyBlocker ≠ .pawn
                  || b.data.pieceFromBit enemyBlocker ≠ .pawn
                  || (pinnerKingDir ≠ .east && pinnerKingDir ≠ .west) then info
              else
                { info with enpassantPinned :=
                    info.enpassantPinned ||| Bitlist.fromPiece friendlyBlocker })
      PinInfo.new

/-- `Board::try_push_move` (`src/board/mod.rs` lines 495-517), as the list
of moves it appends (one or none).  The Rust `unwrap` faults when `from` is
empty; modelled as pushing nothing. -/
def tryPushMove (b : Board) (pininfo : PinInfo) (fromSq destSq : Square)
    (kind : MoveType) (prom : Option Piece) : List Move :=
  match b.data.pieceIndex fromSq with
  | none => []
  | some pieceIdx =>
    match pininfo.pins pieceIdx with
    | some dir =>
      match fromSq.direction destSq with
      | some moveDir =>
        if dir ≠ moveDir && dir ≠ moveDir.opposite then []
        else [Move.new fromSq destSq kind prom]
      | none => []
    | none => [Move.new fromSq destSq kind prom]

/-- `Board::generate_pawn_enpassant` (`src/board/mod.rs` lines 608-620). -/
def generatePawnEnpassant (b : Board) (pininfo : PinInfo) : List Move :=
  match b.ep with
  | none => []
  | some ep =>
    (b.data.attacksTo ep b.side &&& b.data.pawns
        &&& pininfo.enpassantPinned.inv).toList.flatMap (fun capturer =>
      b.tryPushMove pininfo (b.data.squareOfPiece capturer) ep .enPassant none)

/-- `Board::generate_pawn_quiet` (`src/board/mod.rs` lines 623-675). -/
def generatePawnQuiet (b : Board) (fromSq : Square) (pininfo : PinInfo) : List Move :=
  match fromSq.relativeNorth b.side with
  | none => []
  | some dest =>
    if !(b.data.hasPiece dest) then
      let pushes :=
        if dest.rank.isRelativeEighth b.side then
          b.tryPushMove pininfo fromSq dest .promotion (some .queen)
            ++ b.tryPushMove pininfo fromSq dest .promotion (some .knight)
            ++ b.tryPushMove pininfo fromSq dest .promotion (some .rook)
            ++ b.tryPushMove pininfo fromSq dest .promotion (some .bishop)
        else
          b.tryPushMove pininfo fromSq dest .normal none
      let doubles :=
        match dest.relativeNorth b.side with
        | none => []
        | some dest2 =>
          if dest2.rank.isRelativeFourth b.side && !(b.data.hasPiece dest2) then
            b.tryPushMove pininfo fromSq dest2 .doublePush none
          else []
      pushes ++ doubles
    else []

/-- The `add_pawn_block` closure of `generate_single_check`. -/
def addPawnBlock (b : Board) (pininfo : PinInfo) (fromSq destSq : Square)
    (kind : MoveType) : List Move :=
  match b.data.colourFromSquare fromSq with
  | some colour =>
    if colour = b.side then b.tryPushMove pininfo fromSq destSq kind none else []
  | none => []

/-- The `add_pawn_blocks` closure of `generate_single_check`. -/
def addPawnBlocks (b : Board) (pininfo : PinInfo) (dest : Square) : List Move :=
  match dest.relativeSouth b.side with
  | none => []
  | some fromSq =>
    match b.data.pieceFromSquare fromSq with
    | some .pawn => b.addPawnBlock pininfo fromSq dest .normal
    | some _ => []
    | none =>
      if dest.rank.isRelativeFourth b.side then
        match fromSq.relativeSouth b.side with
        | none => []
        | some fromSq2 =>
          if b.data.pieceFromSquare fromSq2 = some .pawn then
            b.addPawnBlock pininfo fromSq2 dest .doublePush
          else []
      else []

/-- The capture-the-attacker loop of `generate_single_check`. -/
def singleCheckCaptures (b : Board) (pininfo : PinInfo) (attackerSquare : Square) :
    List Move :=
  (b.data.attacksTo attackerSquare b.side).toList.flatMap (fun capturer =>
    let fromSq := b.data.squareOfPiece capturer
    if b.data.pieceFromBit capturer = .king
        && !((b.data.attacksTo attackerSquare b.side.not).isEmpty) then []
    else if b.data.pieceFromBit capturer = .pawn
        && attackerSquare.rank.isRelativeEighth b.side then
      b.tryPushMove pininfo fromSq attackerSquare .capturePromotion (some .queen)
        ++ b.tryPushMove pininfo fromSq attackerSquare .capturePromotion (some .knight)
        ++ b.tryPushMove pininfo fromSq attackerSquare .capturePromotion (some .rook)
        ++ b.tryPushMove pininfo fromSq attackerSquare .capturePromotion (some .bishop)
    else
      b.tryPushMove pininfo fromSq attackerSquare .capture none)

/-- One interposition square of `generate_single_check`: piece moves by
non-pawn non-king attackers of the square, then pawn blocks onto it. -/
def singleCheckBlockAt (b : Board) (pininfo : PinInfo) (dest : Square) : List Move :=
  (b.data.attacksTo dest b.side &&& b.data.pawns.inv
      &&& b.data.kings.inv).toList.flatMap (fun attacker =>
    b.tryPushMove pininfo (b.data.squareOfPiece attacker) dest .normal none)
    ++ b.addPawnBlocks pininfo dest

/-- The interposition walk of `generate_single_check`: squares along the ray
from the king towards the attacker, stopping at the attacker's square. -/
def singleCheckBlocksWalk (b : Board) (pininfo : PinInfo) (attackerSquare : Square) :
    List Square → List Move
  | [] => []
  | dest :: rest =>
    if dest = attackerSquare then []
    else
      b.singleCheckBlockAt pininfo dest
        ++ b.singleCheckBlocksWalk pininfo attackerSquare rest

/-- The king-move loop shared by `generate_single_check` (one checker,
captures of the checker excluded) and `generate_double_check` (both
checkers): a move is pushed only if the destination is not attacked by the
enemy and is not the single x-ray square behind the king along a checking
slider's direction. -/
def kingEvasions (b : Board) (kingSquare : Square)
    (checkers : List (Piece × Option Direction))
    (excludeAttackerSquare : Option Square) : List Move :=
  kingSquare.kingAttacks.flatMap (fun square =>
    let skip :=
      if b.data.hasPiece square then
        (match excludeAttackerSquare with
         | some attackerSquare => square = attackerSquare
         | none => false)
        || b.data.colourFromSquare square = some b.side
      else false
    if skip then []
    else
      let kind := if b.data.hasPiece square then MoveType.capture else MoveType.normal
      if !((b.data.attacksTo square b.side.not).isEmpty) then []
      else if checkers.any (fun checker =>
          match checker.2 with
          | some dir =>
            match kingSquare.travel dir with
            | some xraySquare =>
              (checker.1 = .bishop || checker.1 = .rook || checker.1 = .queen)
                && xraySquare = square
            | none => false
          | none => false) then []
      else [Move.new kingSquare square kind none])

/-- `Board::generate_single_check` (`src/board/mod.rs` lines 679-848).
No king, or no attacker, is UB in Rust; modelled as no moves. -/
def generateSingleCheck (b : Board) : List Move :=
  match (b.data.kings &&& Bitlist.maskFromColour b.side).peek with
  | none => []
  | some kingIndex =>
    let kingSquare := b.data.squareOfPiece kingIndex
    let kingSquare16 := Square16x8.fromSquare kingSquare
    match (b.data.attacksTo kingSquare b.side.not).peek with
    | none => []
    | some attackerIndex =>
      let attackerPiece := b.data.pieceFromBit attackerIndex
      let attackerSquare := b.data.squareOfPiece attackerIndex
      let attackerDirection := attackerSquare.direction kingSquare
      let pininfo := b.discoverPinnedPieces
      let captures := b.singleCheckCaptures pininfo attackerSquare
      let epMoves :=
        match b.ep with
        | none => []
        | some ep =>
          match ep.relativeSouth b.side with
          | none => []
          | some epSouth =>
            if epSouth = attackerSquare && attackerPiece = .pawn then
              (b.data.attacksTo ep b.side &&& b.data.pawns
                  &&& pininfo.enpassantPinned.inv).toList.flatMap (fun capturer =>
                b.tryPushMove pininfo (b.data.squareOfPiece capturer) ep
                  .enPassant none)
            else []
      let blocks :=
        if attackerPiece = .bishop || attackerPiece = .rook
            || attackerPiece = .queen then
          match kingSquare.direction attackerSquare with
          | some direction =>
            b.singleCheckBlocksWalk pininfo attackerSquare
              (kingSquare16.rayAttacks direction)
          | none => []
        else []
      let kingMoves :=
        b.kingEvasions kingSquare [(attackerPiece, attackerDirection)]
          (some attackerSquare)
      captures ++ epMoves ++ blocks ++ kingMoves

/-- `Board::generate_double_check` (`src/board/mod.rs` lines 850-905):
only king moves, excluding squares attacked by the enemy and the x-ray
squares of both checkers.  Fewer than two attackers is an `unwrap` fault in
Rust; modelled as no moves. -/
def generateDoubleCheck (b : Board) : List Move :=
  match (b.data.kings &&& Bitlist.maskFromColour b.side).peek with
  | none => []
  | some kingIndex =>
    let kingSquare := b.data.squareOfPiece kingIndex
    match (b.data.attacksTo kingSquare b.side.not).toList with
    | attacker1 :: attacker2 :: _ =>
      let attacker1Piece := b.data.pieceFromBit attacker1
      let attacker1Direction := (b.data.squareOfPiece attacker1).direction kingSquare
      let attacker2Piece := b.data.pieceFromBit attacker2
      let attacker2Direction := (b.data.squareOfPiece attacker2).direction kingSquare
      b.kingEvasions kingSquare
        [(attacker1Piece, attacker1Direction), (attacker2Piece, attacker2Direction)]
        none
    | _ => []

/-- The `find_attackers` closure of `Board::generate_captures`
(`src/board/mod.rs` lines 910-975). -/
def findAttackers (b : Board) (pininfo : PinInfo) (dest : Square) : List Move :=
  let attacks := b.data.attacksTo dest b.side
  ((attacks &&& b.data.pawns).toList.flatMap (fun capturer =>
    let fromSq := b.data.squareOfPiece capturer
    if dest.rank.isRelativeEighth b.side then
      b.tryPushMove pininfo fromSq dest .capturePromotion (some .queen)
        ++ b.tryPushMove pininfo fromSq dest .capturePromotion (some .knight)
        ++ b.tryPushMove pininfo fromSq dest .capturePromotion (some .rook)
        ++ b.tryPushMove pininfo fromSq dest .capturePromotion (some .bishop)
    else b.tryPushMove pininfo fromSq dest .capture none))
  ++ ((attacks &&& b.data.knights).toList.flatMap (fun capturer =>
    b.tryPushMove pininfo (b.data.squareOfPiece capturer) dest .capture none))
  ++ ((attacks &&& b.data.bishops).toList.flatMap (fun capturer =>
    b.tryPushMove pininfo (b.data.squareOfPiece capturer) dest .capture none))
  ++ ((attacks &&& b.data.rooks).toList.flatMap (fun capturer =>
    b.tryPushMove pininfo (b.data.squareOfPiece capturer) dest .capture none))
  ++ ((attacks &&& b.data.queens).toList.flatMap (fun capturer =>
    b.tryPushMove pininfo (b.data.squareOfPiece capturer) dest .capture none))
  ++ ((attacks &&& b.data.kings).toList.flatMap (fun capturer =>
    if !((b.data.attacksTo dest b.side.not).isEmpty) then []
    else b.tryPushMove pininfo (b.data.squareOfPiece capturer) dest .capture none))

/-- The body of `Board::generate_captures` given the pin information
(`generate` recomputes its own copy of the same pin information first,
exactly as the Rust code does). -/
def generateCapturesWith (b : Board) (pininfo : PinInfo) : List Move :=
  ((b.data.piecesOfColour b.side.not &&& b.data.queens).toList.flatMap (fun victim =>
    b.findAttackers pininfo (b.squareOfPiece victim)))
  ++ ((b.data.piecesOfColour b.side.not &&& b.data.rooks).toList.flatMap (fun victim =>
    b.findAttackers pininfo (b.squareOfPiece victim)))
  ++ ((b.data.piecesOfColour b.side.not &&& b.data.bishops).toList.flatMap (fun victim =>
    b.findAttackers pininfo (b.squareOfPiece victim)))
  ++ ((b.data.piecesOfColour b.side.not &&& b.data.knights).toList.flatMap (fun victim =>
    b.findAttackers pininfo (b.squareOfPiece victim)))
  ++ ((b.data.piecesOfColour b.side.not &&& b.data.pawns).toList.flatMap (fun victim =>
    b.findAttackers pininfo (b.squareOfPiece victim)))
  ++ b.generatePawnEnpassant pininfo

/-- `Board::generate_captures` (`src/board/mod.rs` lines 907-994). -/
def generateCaptures (b : Board) : List Move :=
  b.generateCapturesWith b.discoverPinnedPieces

/-- `Board::generate` (`src/board/mod.rs` lines 1191-1276). -/
def generate (b : Board) : List Move :=
  match (b.data.kings &&& Bitlist.maskFromColour b.side).peek with
  | none => []
  | some kingIndex =>
    let kingSquare := b.data.squareOfPiece kingIndex
    let checks := b.data.attacksTo kingSquare b.side.not
    if checks.countOnes = 1 then b.generateSingleCheck
    else if checks.countOnes = 2 then b.generateDoubleCheck
    else
      let pininfo := b.discoverPinnedPieces
      let captures := b.generateCapturesWith pininfo
      let pawnMoves :=
        (b.data.pawns &&& Bitlist.maskFromColour b.side).toList.flatMap (fun pawn =>
          b.generatePawnQuiet (b.data.squareOfPiece pawn) pininfo)
      let quietMoves :=
        (List.finRange 64).flatMap (fun dest =>
          if b.data.hasPiece dest then []
          else
            (b.data.attacksTo dest b.side &&& b.data.pawns.inv).toList.flatMap
              (fun attacker =>
                if b.data.pieceFromBit attacker = .king
                    && !((b.data.attacksTo dest b.side.not).isEmpty) then []
                else
                  b.tryPushMove pininfo (b.data.squareOfPiece attacker) dest
                    .normal none))
      let kingsideCastle :=
        if (b.side = .white && b.castle0) || (b.side = .black && b.castle2) then
          match kingSquare.east with
          | none => []
          | some east1 =>
            match east1.east with
            | none => []
            | some east2 =>
              if (b.data.attacksTo kingSquare b.side.not).isEmpty
                  && !(b.data.hasPiece east1)
                  && (b.data.attacksTo east1 b.side.not).isEmpty
                  && !(b.data.hasPiece east2)
                  && (b.data.attacksTo east2 b.side.not).isEmpty then
                b.tryPushMove pininfo kingSquare east2 .castle none
              else []
        else []
      let queensideCastle :=
        if (b.side = .white && b.castle1) || (b.side = .black && b.castle3) then
          match kingSquare.west with
          | none => []
          | some west1 =>
            match west1.west with
            | none => []
            | some west2 =>
              match west2.west with
              | none => []
              | some west3 =>
                if (b.data.attacksTo kingSquare b.side.not).isEmpty
                    && !(b.data.hasPiece west1)
                    && (b.data.attacksTo west1 b.side.not).isEmpty
                    && !(b.data.hasPiece west2)
                    && (b.data.attacksTo west2 b.side.not).isEmpty
                    && !(b.data.hasPiece west3) then
                  b.tryPushMove pininfo kingSquare west2 .castle none
                else []
        else []
      captures ++ pawnMoves ++ quietMoves ++ kingsideCastle ++ queensideCastle

end Board

/-- `perft` (`src/lib.rs` lines 20-42).  The Rust count is a `u64`; all
reference values fit comfortably, so it is modelled as a natural. -/
def perft (b : Board) (z : Zobrist) : Nat → Nat
  | 0 => 1
  | 1 => b.generate.length
  | depth + 2 =>
    b.generate.foldl (fun count m => count + perft (b.make m z) z (depth + 1)) 0

/-! ## Concrete inputs used by witnesses and counterexamples -/

/-- A concrete Zobrist table that is zero everywhere except the en-passant
keys, which are the file index.  Any table with `ep 2 ≠ ep 4` exposes the
rank/file mismatch between `set_ep` and `recalculate_hash`. -/
def zEpOnly : Zobrist := ⟨fun _ _ _ => 0, 0, fun f => f.val, fun _ => 0⟩

/-- A concrete Zobrist table with distinct castling keys and a side key. -/
def zCastle : Zobrist := ⟨fun _ _ _ => 0, 11, fun _ => 0, fun i => 100 + i.val⟩

/-- `true` iff a FEN parse produced a position. -/
def FenResult.isParsed : FenResult → Bool
  | .parsed _ => true
  | _ => false

/-- The bytes of `"k7/8/8/8/8/8/4P3/K7 w - - 0 1"`: black king a8, white
king a1, white pawn e2, white to move. -/
def fenKPK : List Nat :=
  [107, 55, 47, 56, 47, 56, 47, 56, 47, 56, 47, 56, 47, 52, 80, 51, 47,
   75, 55, 32, 119, 32, 45, 32, 45, 32, 48, 32, 49]

/-- The board parsed from `fenKPK` (the fallback arm is dead:
`fenKPK_parses` below evaluates the parse). -/
def boardKPK : Board :=
  match Board.fromFenBytes fenKPK zEpOnly with
  | .parsed b => b
  | _ => Board.new

/-- The double pawn push e2e4. -/
def moveE2E4 : Move := Move.new ⟨12, by omega⟩ ⟨28, by omega⟩ .doublePush none

/-- Bytes of `"4k3/4r3/8/8/8/8/8/R3K2R b KQ - 0 1"`: black rook e7, white
king e1 with both castling rights, black to move. -/
def fenRights : List Nat :=
  [52, 107, 51, 47, 52, 114, 51, 47, 56, 47, 56, 47, 56, 47, 56, 47, 56, 47,
   82, 51, 75, 50, 82, 32, 98, 32, 75, 81, 32, 45, 32, 48, 32, 49]

/-- The board parsed from `fenRights` (the fallback arm is dead, as the
counterexample's first conjunct shows). -/
def boardRights : Board :=
  match Board.fromFenBytes fenRights zCastle with
  | .parsed b => b
  | _ => Board.new

/-- The move e7e1: the black rook captures on e1. -/
def moveRxE1 : Move := Move.new ⟨52, by omega⟩ ⟨4, by omega⟩ .capture none

/-- Sequential composition of two emission stages: if the first stage was
cut short, the second never runs (its invocations do not happen). -/
def emitThen (p q : Bool × List Move) : Bool × List Move :=
  if p.1 then (q.1, p.2 ++ q.2) else p

/-- A `for` loop over emission steps with early exit. -/
def emitFold {α : Type} (step : α → Bool × List Move) : List α → Bool × List Move
  | [] => (true, [])
  | x :: rest => emitThen (step x) (emitFold step rest)

/-- The `try_move` closure of `generate_captures_incremental`: a pinned
piece moving off its pin ray is skipped without consulting `f` (returning
`true`); otherwise `f` decides.  The Rust `unwrap` on an empty `from`
faults; modelled as a skip. -/
def tryMoveInc (b : Board) (pininfo : PinInfo) (f : Move → Bool)
    (fromSq destSq : Square) (kind : MoveType) (prom : Option Piece) :
    Bool × List Move :=
  match b.data.pieceIndex fromSq with
  | none => (true, [])
  | some pieceIdx =>
    match pininfo.pins pieceIdx with
    | some dir =>
      match fromSq.direction destSq with
      | some moveDir =>
        if dir = moveDir || dir = moveDir.opposite then
          (f (Move.new fromSq destSq kind prom), [Move.new fromSq destSq kind prom])
        else (true, [])
      | none => (true, [])
    | none => (f (Move.new fromSq destSq kind prom), [Move.new fromSq destSq kind prom])

/-- The `find_attackers` closure of `generate_captures_incremental`:
MVV/LVA attacker loops over one victim square, with the accumulated-mask
bad-capture pruning. -/
def findAttackersInc (b : Board) (pininfo : PinInfo) (f : Move → Bool)
    (dest : Square) (victimType : Piece)
    (minorMask rookMask queenMask : Bitlist) : Bool × List Move :=
  let attacks := b.data.attacksTo dest b.side
  emitThen
    (emitFold (fun capturer =>
      let fromSq := b.data.squareOfPiece capturer
      if dest.rank.isRelativeEighth b.side then
        emitThen (tryMoveInc b pininfo f fromSq dest .capturePromotion (some .queen))
          (emitThen (tryMoveInc b pininfo f fromSq dest .capturePromotion (some .knight))
            (emitThen (tryMoveInc b pininfo f fromSq dest .capturePromotion (some .rook))
              (tryMoveInc b pininfo f fromSq dest .capturePromotion (some .bishop))))
      else tryMoveInc b pininfo f fromSq dest .capture none)
      (attacks &&& b.data.pawns).toList)
    (emitThen
      (emitFold (fun capturer =>
        if victimType.lt .bishop
            && !((b.data.attacksTo dest b.side.not &&& minorMask).isEmpty) then
          (true, [])
        else tryMoveInc b pininfo f (b.data.squareOfPiece capturer) dest .capture none)
        (attacks &&& (b.data.knights ||| b.data.bishops)).toList)
      (emitThen
        (emitFold (fun capturer =>
          if victimType.lt .rook
              && !((b.data.attacksTo dest b.side.not &&& rookMask).isEmpty) then
            (true, [])
          else tryMoveInc b pininfo f (b.data.squareOfPiece capturer) dest .capture none)
          (attacks &&& b.data.rooks).toList)
        (emitThen
          (emitFold (fun capturer =>
            if victimType.lt .queen
                && !((b.data.attacksTo dest b.side.not &&& queenMask).isEmpty) then
              (true, [])
            else tryMoveInc b pininfo f (b.data.squareOfPiece capturer) dest .capture none)
            (attacks &&& b.data.queens).toList)
          (emitFold (fun capturer =>
            if !((b.data.attacksTo dest b.side.not).isEmpty) then (true, [])
            else tryMoveInc b pininfo f (b.data.squareOfPiece capturer) dest .capture none)
            (attacks &&& b.data.kings).toList))))

/-- `Board::generate_captures_incremental` (`src/board/mod.rs` lines
997-1184): victims from queens down to pawns, with the recapture masks
accumulated between victim classes; a `false` from the continuation
returns immediately from every level. -/
def generateCapturesIncremental (b : Board) (f : Move → Bool) : Bool × List Move :=
  let pininfo := b.discoverPinnedPieces
  let enemy := b.data.piecesOfColour b.side.not
  let minorMask := Bitlist.new ||| (enemy &&& b.data.pawns)
  let rookMask := Bitlist.new ||| (enemy &&& b.data.pawns)
  let queenMask := Bitlist.new ||| (enemy &&& b.data.pawns)
  emitThen
    (emitFold (fun victim =>
      findAttackersInc b pininfo f (b.squareOfPiece victim) .queen
        minorMask rookMask queenMask) (enemy &&& b.data.queens).toList)
    (let queenMask := queenMask ||| (enemy &&& (b.data.knights ||| b.data.bishops))
     emitThen
      (emitFold (fun victim =>
        findAttackersInc b pininfo f (b.squareOfPiece victim) .rook
          minorMask rookMask queenMask) (enemy &&& b.data.rooks).toList)
      (let queenMask := queenMask ||| (enemy &&& b.data.rooks)
       emitThen
        (emitFold (fun victim =>
          findAttackersInc b pininfo f (b.squareOfPiece victim) .bishop
            minorMask rookMask queenMask)
          (enemy &&& (b.data.knights ||| b.data.bishops)).toList)
        (let rookMask := rookMask ||| (enemy &&& (b.data.knights ||| b.data.bishops))
         emitFold (fun victim =>
          findAttackersInc b pininfo f (b.squareOfPiece victim) .pawn
            minorMask rookMask queenMask) (enemy &&& b.data.pawns).toList)))

/-- Every invocation of the continuation, except possibly the last one,
returned `true`; and a stage that ended with `true` only made invocations
that returned `true`. -/
def EmitsOk (f : Move → Bool) (p : Bool × List Move) : Prop :=
  (p.1 = true → ∀ m ∈ p.2, f m = true) ∧ (∀ m ∈ p.2.dropLast, f m = true)

/-- Bytes of `"4k3/8/8/3p4/2P1P3/8/8/4K3 w - - 0 1"`: two white pawns both
attack the black pawn on d5. -/
def fenTwoCaptures : List Nat :=
  [52, 107, 51, 47, 56, 47, 56, 47, 51, 112, 52, 47, 50, 80, 49, 80, 51, 47,
   56, 47, 56, 47, 52, 75, 51, 32, 119, 32, 45, 32, 45, 32, 48, 32, 49]

/-- The parsed two-captures board. -/
def boardTwoCaptures : Board :=
  match Board.fromFenBytes fenTwoCaptures zCastle with
  | .parsed b => b
  | _ => Board.new

/-- The board-state consistency used by the generation claims: the
square-to-identifier and identifier-to-square maps agree, and the attack
table only mentions live identifiers. -/
@[reducible]

def Consistent (d : BoardData) : Prop :=
  (∀ (sq : Square) (i : PieceIndex), d.index sq = some i → d.piecelist i = some sq)
    ∧ (∀ i : PieceIndex, d.pieces.testBit i.val = true →
        ∃ sq : Square, d.piecelist i = some sq ∧ d.index sq = some i)
    ∧ (∀ (sq : Square) (i : PieceIndex), (d.bitlist sq).testBit i.val = true →
        d.pieces.testBit i.val = true)

/-- `true` iff the piece kind is a slider (bishop, rook or queen). -/
def isSlider (p : Piece) : Bool := p = .bishop || p = .rook || p = .queen

/-- Bytes of `"3Rk3/8/5N2/8/8/8/8/4K3 b - - 0 1"`: the black king on e8 is
in double check from the rook on d8 and the knight on f6. -/
def fenDoubleCheck : List Nat :=
  [51, 82, 107, 51, 47, 56, 47, 53, 78, 50, 47, 56, 47, 56, 47, 56, 47, 56,
   47, 52, 75, 51, 32, 98, 32, 45, 32, 45, 32, 48, 32, 49]

/-- The parsed double-check board. -/
def boardDoubleCheck : Board :=
  match Board.fromFenBytes fenDoubleCheck zCastle with
  | .parsed b => b
  | _ => Board.new

/-- The black king's piece identifier on `boardDoubleCheck`. -/
def dcKingIdx : PieceIndex := ⟨16, by omega⟩

/-- The king evasion e8e7 on `boardDoubleCheck`. -/
def dcMove : Move := Move.new ⟨60, by omega⟩ ⟨52, by omega⟩ .normal none

/-- Bytes of `"4k3/1P6/8/8/8/8/8/4K3 w - - 0 1"`: a white pawn on b7 with
b8 empty. -/
def fenPromo : List Nat :=
  [52, 107, 51, 47, 49, 80, 54, 47, 56, 47, 56, 47, 56, 47, 56, 47, 56, 47,
   52, 75, 51, 32, 119, 32, 45, 32, 45, 32, 48, 32, 49]

/-- The parsed promotion board. -/
def boardPromo : Board :=
  match Board.fromFenBytes fenPromo zCastle with
  | .parsed b => b
  | _ => Board.new

/-- The bytes of `"r3k2r/8/8/8/8/8/8/R3K2R w KQkq - 0 1"`: both sides may
castle either way; white to move. -/
def fenCastle : List Nat :=
  [114, 51, 107, 50, 114, 47, 56, 47, 56, 47, 56, 47, 56, 47, 56, 47, 56, 47,
   82, 51, 75, 50, 82, 32, 119, 32, 75, 81, 107, 113, 32, 45, 32, 48, 32, 49]

/-- The board parsed from `fenCastle` (the fallback arm is dead: the
witness below evaluates the parse). -/
def boardCastle : Board :=
  match Board.fromFenBytes fenCastle zEpOnly with
  | .parsed b => b
  | _ => Board.new

/-! ## C10: `Piecelist::get` on a dead identifier -/

/-- C10: looking up the square of a piece identifier is total: an identifier
with no square assigned in the piece-location map yields the square with
internal index 0 (a1) instead of failing. -/
theorem piecelist_get_dead_total (pl : Piecelist) (i : PieceIndex)
    (h : pl i = none) : Piecelist.get pl i = ⟨0, by omega⟩ := by
  simp [Piecelist.get, h]

/-- Witness for C10 at the empty piece list and identifier 0. -/
theorem piecelist_get_dead_total_witness :
    Piecelist.new (0 : PieceIndex) = none
      ∧ Piecelist.get Piecelist.new (0 : PieceIndex) = ⟨0, by omega⟩ :=
  ⟨rfl, piecelist_get_dead_total Piecelist.new 0 rfl⟩

/-! ## C7: double null move restores the hash -/

/-- C7: for every position and Zobrist table, applying `make_null` twice
yields a position whose hash equals the original hash (each null move XORs
exactly the side key, and XOR is an involution; the en-passant square is
cleared without touching the hash). -/
theorem make_null_twice_hash (b : Board) (z : Zobrist) :
    ((b.makeNull z).makeNull z).hash = b.hash := by
  simp [Board.makeNull, Nat.xor_assoc]

/-! ## C2: the perft recurrence -/

/-- Folding an accumulating sum equals the starting value plus the sum of
the mapped list. -/
theorem foldl_add_eq_sum {α : Type} (f : α → Nat) (l : List α) (c : Nat) :
    l.foldl (fun acc x => acc + f x) c = c + (l.map f).sum := by
  induction l generalizing c with
  | nil => simp
  | cons x xs ih => simp [ih, Nat.add_assoc]

/-- C2: `perft` at depth 0 is 1; at depth 1 it is the length of the
generated move list (no move is applied); at depth ≥ 2 it is the sum over
the generated moves of `perft` of the resulting position at depth − 1. -/
theorem perft_recurrence (b : Board) (z : Zobrist) :
    perft b z 0 = 1
      ∧ perft b z 1 = b.generate.length
      ∧ ∀ d, 2 ≤ d →
          perft b z d = (b.generate.map (fun m => perft (b.make m z) z (d - 1))).sum := by
  refine ⟨rfl, rfl, fun d hd => ?_⟩
  obtain ⟨k, rfl⟩ : ∃ k, d = k + 2 := ⟨d - 2, by omega⟩
  show b.generate.foldl (fun count m => count + perft (b.make m z) z (k + 1)) 0 = _
  rw [foldl_add_eq_sum]
  simp

/-- Witness for C2: the depth-2 recurrence instantiated at the parsed
king-and-pawn position. -/
theorem perft_recurrence_witness :
    2 ≤ 2 ∧ perft boardKPK zEpOnly 2 =
      (boardKPK.generate.map (fun m => perft (boardKPK.make m zEpOnly) zEpOnly (2 - 1))).sum :=
  ⟨by omega, (perft_recurrence boardKPK zEpOnly).2.2 2 (by omega)⟩

/-! ## C1: the incremental hash diverges from `recalculate_hash` -/

/-- C1 (code bug): from the FEN-parsed king-and-pawn position, the double
push e2e4 is among the generated moves, yet the resulting position's
incrementally maintained hash differs from the hash recomputed from scratch
by `recalculate_hash`: `set_ep` XORs `zobrist.ep[File::from(ep)]` (file e =
4) while `recalculate_hash` XORs `zobrist.ep[Rank::from(ep)]` (rank 3 = 2). -/
theorem incremental_hash_diverges_after_double_push :
    (Board.fromFenBytes fenKPK zEpOnly).isParsed = true
      ∧ moveE2E4 ∈ boardKPK.generate
      ∧ (boardKPK.make moveE2E4 zEpOnly).hash = 4
      ∧ ((boardKPK.make moveE2E4 zEpOnly).recalculateHash zEpOnly).hash = 2 := by
  refine ⟨by decide, by decide, by decide, by decide⟩

/-! ## C5: castling-right revocation in `make` -/

theorem xor_left_comm' (a b c : Nat) : a ^^^ (b ^^^ c) = b ^^^ (a ^^^ c) := by
  rw [← Nat.xor_assoc, Nat.xor_comm a b, Nat.xor_assoc]

/-- Two mutually exclusive conditional XOR contributions of the same key
merge into one. -/
theorem xor_ite_merge (c e h : Bool) (k : Nat) :
    ((if c && e then k else 0) ^^^ (if (c && !e) && h then k else 0))
      = if c && (e || h) then k else 0 := by
  cases c <;> cases e <;> cases h <;> simp

namespace Board

theorem blockE1_spec (b : Board) (m : Move) (z : Zobrist) :
    (blockE1 b m z).castle0 = (b.castle0 && !(decide (m.fromSq = sqE1)))
    ∧ (blockE1 b m z).castle1 = (b.castle1 && !(decide (m.fromSq = sqE1)))
    ∧ (blockE1 b m z).castle2 = b.castle2
    ∧ (blockE1 b m z).castle3 = b.castle3
    ∧ (blockE1 b m z).side = b.side
    ∧ (blockE1 b m z).hash = b.hash
        ^^^ (if b.castle0 && decide (m.fromSq = sqE1) then z.castling 0 else 0)
        ^^^ (if b.castle1 && decide (m.fromSq = sqE1) then z.castling 1 else 0) := by
  by_cases h : m.fromSq = sqE1 <;> cases hc0 : b.castle0 <;> cases hc1 : b.castle1 <;>
    simp_all [blockE1, Nat.xor_assoc]

theorem blockE8_spec (b : Board) (m : Move) (z : Zobrist) :
    (blockE8 b m z).castle0 = b.castle0
    ∧ (blockE8 b m z).castle1 = b.castle1
    ∧ (blockE8 b m z).castle2 = (b.castle2 && !(decide (m.fromSq = sqE8)))
    ∧ (blockE8 b m z).castle3 = (b.castle3 && !(decide (m.fromSq = sqE8)))
    ∧ (blockE8 b m z).side = b.side
    ∧ (blockE8 b m z).hash = b.hash
        ^^^ (if b.castle2 && decide (m.fromSq = sqE8) then z.castling 2 else 0)
        ^^^ (if b.castle3 && decide (m.fromSq = sqE8) then z.castling 3 else 0) := by
  by_cases h : m.fromSq = sqE8 <;> cases hc2 : b.castle2 <;> cases hc3 : b.castle3 <;>
    simp_all [blockE8, Nat.xor_assoc]

theorem blockH1_spec (b : Board) (m : Move) (z : Zobrist) :
    (blockH1 b m z).castle0
        = (b.castle0 && !(decide (m.fromSq = sqH1) || decide (m.dest = sqH1)))
    ∧ (blockH1 b m z).castle1 = b.castle1
    ∧ (blockH1 b m z).castle2 = b.castle2
    ∧ (blockH1 b m z).castle3 = b.castle3
    ∧ (blockH1 b m z).side = b.side
    ∧ (blockH1 b m z).hash = b.hash
        ^^^ (if b.castle0 && (decide (m.fromSq = sqH1) || decide (m.dest = sqH1))
             then z.castling 0 else 0) := by
  cases hc : b.castle0 <;>
    by_cases h : (m.fromSq = sqH1 ∨ m.dest = sqH1) <;>
    simp_all [blockH1] <;> tauto

theorem blockA1_spec (b : Board) (m : Move) (z : Zobrist) :
    (blockA1 b m z).castle0 = b.castle0
    ∧ (blockA1 b m z).castle1
        = (b.castle1 && !(decide (m.fromSq = sqA1) || decide (m.dest = sqA1)))
    ∧ (blockA1 b m z).castle2 = b.castle2
    ∧ (blockA1 b m z).castle3 = b.castle3
    ∧ (blockA1 b m z).side = b.side
    ∧ (blockA1 b m z).hash = b.hash
        ^^^ (if b.castle1 && (decide (m.fromSq = sqA1) || decide (m.dest = sqA1))
             then z.castling 1 else 0) := by
  cases hc : b.castle1 <;>
    by_cases h : (m.fromSq = sqA1 ∨ m.dest = sqA1) <;>
    simp_all [blockA1] <;> tauto

theorem blockH8_spec (b : Board) (m : Move) (z : Zobrist) :
    (blockH8 b m z).castle0 = b.castle0
    ∧ (blockH8 b m z).castle1 = b.castle1
    ∧ (blockH8 b m z).castle2
        = (b.castle2 && !(decide (m.fromSq = sqH8) || decide (m.dest = sqH8)))
    ∧ (blockH8 b m z).castle3 = b.castle3
    ∧ (blockH8 b m z).side = b.side
    ∧ (blockH8 b m z).hash = b.hash
        ^^^ (if b.castle2 && (decide (m.fromSq = sqH8) || decide (m.dest = sqH8))
             then z.castling 2 else 0) := by
  cases hc : b.castle2 <;>
    by_cases h : (m.fromSq = sqH8 ∨ m.dest = sqH8) <;>
    simp_all [blockH8] <;> tauto

theorem blockA8_spec (b : Board) (m : Move) (z : Zobrist) :
    (blockA8 b m z).castle0 = b.castle0
    ∧ (blockA8 b m z).castle1 = b.castle1
    ∧ (blockA8 b m z).castle2 = b.castle2
    ∧ (blockA8 b m z).castle3
        = (b.castle3 && !(decide (m.fromSq = sqA8) || decide (m.dest = sqA8)))
    ∧ (blockA8 b m z).side = b.side
    ∧ (blockA8 b m z).hash = b.hash
        ^^^ (if b.castle3 && (decide (m.fromSq = sqA8) || decide (m.dest = sqA8))
             then z.castling 3 else 0) := by
  cases hc : b.castle3 <;>
    by_cases h : (m.fromSq = sqA8 ∨ m.dest = sqA8) <;>
    simp_all [blockA8] <;> tauto

/-- The rights-and-side stage of `make`, characterized: each right survives
iff it was set and the move touches none of its trigger squares (for the
king squares e1/e8 only the source square triggers), the corresponding key
is XORed out exactly when a right is revoked, and the side key is XORed. -/
theorem makeRights_spec (b : Board) (m : Move) (z : Zobrist) :
    (makeRights b m z).castle0
        = (b.castle0 && !(decide (m.fromSq = sqE1) || decide (m.fromSq = sqH1)
            || decide (m.dest = sqH1)))
    ∧ (makeRights b m z).castle1
        = (b.castle1 && !(decide (m.fromSq = sqE1) || decide (m.fromSq = sqA1)
            || decide (m.dest = sqA1)))
    ∧ (makeRights b m z).castle2
        = (b.castle2 && !(decide (m.fromSq = sqE8) || decide (m.fromSq = sqH8)
            || decide (m.dest = sqH8)))
    ∧ (makeRights b m z).castle3
        = (b.castle3 && !(decide (m.fromSq = sqE8) || decide (m.fromSq = sqA8)
            || decide (m.dest = sqA8)))
    ∧ (makeRights b m z).side = b.side.not
    ∧ (makeRights b m z).hash
        = b.hash
          ^^^ (if b.castle0 && (decide (m.fromSq = sqE1) || (decide (m.fromSq = sqH1)
                || decide (m.dest = sqH1))) then z.castling 0 else 0)
          ^^^ (if b.castle1 && (decide (m.fromSq = sqE1) || (decide (m.fromSq = sqA1)
                || decide (m.dest = sqA1))) then z.castling 1 else 0)
          ^^^ (if b.castle2 && (decide (m.fromSq = sqE8) || (decide (m.fromSq = sqH8)
                || decide (m.dest = sqH8))) then z.castling 2 else 0)
          ^^^ (if b.castle3 && (decide (m.fromSq = sqE8) || (decide (m.fromSq = sqA8)
                || decide (m.dest = sqA8))) then z.castling 3 else 0)
          ^^^ z.side := by
  obtain ⟨e10, e11, e12, e13, e1s, e1h⟩ := blockE1_spec b m z
  obtain ⟨e80, e81, e82, e83, e8s, e8h⟩ := blockE8_spec (blockE1 b m z) m z
  obtain ⟨h10, h11, h12, h13, h1s, h1h⟩ :=
    blockH1_spec (blockE8 (blockE1 b m z) m z) m z
  obtain ⟨a10, a11, a12, a13, a1s, a1h⟩ :=
    blockA1_spec (blockH1 (blockE8 (blockE1 b m z) m z) m z) m z
  obtain ⟨h80, h81, h82, h83, h8s, h8h⟩ :=
    blockH8_spec (blockA1 (blockH1 (blockE8 (blockE1 b m z) m z) m z) m z) m z
  obtain ⟨a80, a81, a82, a83, a8s, a8h⟩ :=
    blockA8_spec (blockH8 (blockA1 (blockH1 (blockE8 (blockE1 b m z) m z) m z) m z) m z)
      m z
  refine ⟨?_, ?_, ?_, ?_, ?_, ?_⟩
  · show (blockA8 _ m z).castle0 = _
    rw [a80, h80, a10, h10, e80, e10]
    cases b.castle0 <;> simp [Bool.and_assoc]
  · show (blockA8 _ m z).castle1 = _
    rw [a81, h81, a11, h11, e81, e11]
    cases b.castle1 <;> simp [Bool.and_assoc]
  · show (blockA8 _ m z).castle2 = _
    rw [a82, h82, a12, h12, e82, e12]
    cases b.castle2 <;> simp [Bool.and_assoc]
  · show (blockA8 _ m z).castle3 = _
    rw [a83, h83, a13, h13, e83, e13]
    cases b.castle3 <;> simp [Bool.and_assoc]
  · show (blockA8 _ m z).side.not = _
    rw [a8s, h8s, a1s, h1s, e8s, e1s]
  · show (blockA8 _ m z).hash ^^^ z.side = _
    simp only [a8h, h8h, a1h, h1h, e8h, e1h,
      h83, a13, h13, e83, e13, a12, h12, e82, e12, h11, e81, e11, e80, e10]
    rw [← xor_ite_merge b.castle0 (decide (m.fromSq = sqE1))
          (decide (m.fromSq = sqH1) || decide (m.dest = sqH1)) (z.castling 0),
        ← xor_ite_merge b.castle1 (decide (m.fromSq = sqE1))
          (decide (m.fromSq = sqA1) || decide (m.dest = sqA1)) (z.castling 1),
        ← xor_ite_merge b.castle2 (decide (m.fromSq = sqE8))
          (decide (m.fromSq = sqH8) || decide (m.dest = sqH8)) (z.castling 2),
        ← xor_ite_merge b.castle3 (decide (m.fromSq = sqE8))
          (decide (m.fromSq = sqA8) || decide (m.dest = sqA8)) (z.castling 3)]
    ac_rfl

end Board

namespace Board

/-- `set_ep` touches only the hash and the en-passant square. -/
theorem setEp_castles (b : Board) (z : Zobrist) (e : Option Square) :
    (b.setEp z e).castle0 = b.castle0 ∧ (b.setEp z e).castle1 = b.castle1
      ∧ (b.setEp z e).castle2 = b.castle2 ∧ (b.setEp z e).castle3 = b.castle3 := by
  cases hbe : b.ep <;> cases he : e <;> simp [Board.setEp, hbe, he]

/-- The move-kind dispatch of `make` never touches the castling rights. -/
theorem makeDispatch_castles (b : Board) (m : Move) (z : Zobrist) :
    (b.makeDispatch m z).castle0 = b.castle0
      ∧ (b.makeDispatch m z).castle1 = b.castle1
      ∧ (b.makeDispatch m z).castle2 = b.castle2
      ∧ (b.makeDispatch m z).castle3 = b.castle3 := by
  cases hk : m.kind <;> simp only [Board.makeDispatch, hk] <;>
    (repeat' split) <;>
    simp [setEp_castles]

end Board

/-- C5 (amended): after `make`, a castling right survives exactly when it was
set and the move does not touch its trigger squares, where for the king
squares e1/e8 only the move's *source* triggers revocation (the Rust code
checks `m.from == e1` / `m.from == e8` only), while for the rook corners
a1/h1/a8/h8 both source and destination trigger; the hash has exactly the
revoked rights' keys XORed out of the post-dispatch hash, plus the side key. -/
theorem make_castling_rights (b : Board) (m : Move) (z : Zobrist) :
    (b.make m z).castle0
        = (b.castle0 && !(decide (m.fromSq = sqE1) || decide (m.fromSq = sqH1)
            || decide (m.dest = sqH1)))
    ∧ (b.make m z).castle1
        = (b.castle1 && !(decide (m.fromSq = sqE1) || decide (m.fromSq = sqA1)
            || decide (m.dest = sqA1)))
    ∧ (b.make m z).castle2
        = (b.castle2 && !(decide (m.fromSq = sqE8) || decide (m.fromSq = sqH8)
            || decide (m.dest = sqH8)))
    ∧ (b.make m z).castle3
        = (b.castle3 && !(decide (m.fromSq = sqE8) || decide (m.fromSq = sqA8)
            || decide (m.dest = sqA8)))
    ∧ (b.make m z).hash
        = (b.makeDispatch m z).hash
          ^^^ (if b.castle0 && (decide (m.fromSq = sqE1) || (decide (m.fromSq = sqH1)
                || decide (m.dest = sqH1))) then z.castling 0 else 0)
          ^^^ (if b.castle1 && (decide (m.fromSq = sqE1) || (decide (m.fromSq = sqA1)
                || decide (m.dest = sqA1))) then z.castling 1 else 0)
          ^^^ (if b.castle2 && (decide (m.fromSq = sqE8) || (decide (m.fromSq = sqH8)
                || decide (m.dest = sqH8))) then z.castling 2 else 0)
          ^^^ (if b.castle3 && (decide (m.fromSq = sqE8) || (decide (m.fromSq = sqA8)
                || decide (m.dest = sqA8))) then z.castling 3 else 0)
          ^^^ z.side := by
  obtain ⟨d0, d1, d2, d3⟩ := Board.makeDispatch_castles b m z
  obtain ⟨r0, r1, r2, r3, _, rh⟩ := Board.makeRights_spec (b.makeDispatch m z) m z
  show (Board.makeRights (b.makeDispatch m z) m z).castle0 = _
    ∧ (Board.makeRights (b.makeDispatch m z) m z).castle1 = _
    ∧ (Board.makeRights (b.makeDispatch m z) m z).castle2 = _
    ∧ (Board.makeRights (b.makeDispatch m z) m z).castle3 = _
    ∧ (Board.makeRights (b.makeDispatch m z) m z).hash = _
  rw [r0, r1, r2, r3, rh, d0, d1, d2, d3]
  exact ⟨rfl, rfl, rfl, rfl, rfl⟩

/-- C5 counterexample: a move whose *destination* is e1, played on a board
where white retains the kingside right, leaves that right intact — contrary
to the claim that a destination touching e1 extinguishes the corresponding
rights (the code only tests the source square against e1/e8). -/
theorem make_dest_e1_keeps_right :
    (Board.fromFenBytes fenRights zCastle).isParsed = true
      ∧ moveRxE1.dest = sqE1
      ∧ boardRights.castle0 = true
      ∧ (boardRights.make moveRxE1 zCastle).castle0 = true := by
  refine ⟨by decide, by decide, by decide, by decide⟩

/-! ## C8: FEN parsing error behaviour -/

/-- C8 counterexample: the empty byte string is not a well-formed FEN
record, yet `from_fen_bytes` faults (the Rust code's unchecked `fen[0]`
panics, as its doc comment warns) instead of returning the `None` error
result. -/
theorem fromFenBytes_empty_faults :
    Board.fromFenBytes [] zCastle = FenResult.fault
      ∧ FenResult.fault ≠ FenResult.reject :=
  ⟨rfl, fun h => FenResult.noConfusion h⟩

/-- C8 (amended): when the parser reads a placement byte that is neither an
empty-run digit (1-8) nor a piece letter, it returns the `None` error
result; here stated for the first byte of the input.  (Truncated inputs
fault instead, as `fromFenBytes_empty_faults` shows.) -/
theorem fromFenBytes_invalid_first_byte_rejects (fen : List Nat) (z : Zobrist)
    (c : Nat) (h1 : fen.get? 0 = some c)
    (h2 : (0x31 ≤ c && c ≤ 0x38) = false)
    (h3 : pieceOfByte c = none) :
    Board.fromFenBytes fen z = FenResult.reject := by
  have hloop : fenFileLoop fen 9 Board.new 7 0 0 c = .reject := by
    show fenFileLoop fen (8 + 1) Board.new 7 0 0 c = .reject
    unfold fenFileLoop
    simp [h2, h3]
  have hrank : fenRankLoop fen [7, 6, 5, 4, 3, 2, 1, 0] Board.new 0 c = .reject := by
    unfold fenRankLoop
    rw [hloop]
  cases fen with
  | nil => simp at h1
  | cons c0 rest =>
    have hc : c0 = c := by simpa using h1
    subst hc
    simp only [Board.fromFenBytes, List.get?_cons_zero, hrank]

/-- Witness for the amended C8 at the one-byte input `"x"`. -/
theorem fromFenBytes_invalid_first_byte_rejects_witness :
    ([0x78] : List Nat).get? 0 = some 0x78
      ∧ (0x31 ≤ 0x78 && 0x78 ≤ 0x38) = false
      ∧ pieceOfByte 0x78 = none
      ∧ Board.fromFenBytes [0x78] zCastle = FenResult.reject :=
  ⟨by decide, by decide, by decide,
   fromFenBytes_invalid_first_byte_rejects [0x78] zCastle 0x78 rfl (by decide) (by decide)⟩

/-! ## C9: the captures-ordered emitter stops after the continuation
returns false.

`generate_captures_incremental` (`src/board/mod.rs` lines 997-1184) invokes
a caller continuation `f` on each emitted capture and propagates `false`
outward, returning immediately.  The embedding returns, along with the
continue/stop flag, the exact sequence of moves on which `f` was invoked. -/

theorem mem_dropLast_append {m : Move} (a b : List Move)
    (h : m ∈ (a ++ b).dropLast) : m ∈ a ∨ m ∈ b.dropLast := by
  induction a with
  | nil => exact Or.inr (by simpa using h)
  | cons x xs ih =>
    cases hxb : xs ++ b with
    | nil =>
      simp [hxb] at h
    | cons y ys =>
      rw [List.cons_append, hxb, List.dropLast_cons₂, List.mem_cons] at h
      cases h with
      | inl h => exact Or.inl (by simp [h])
      | inr h =>
        rcases ih (by rw [hxb]; exact h) with h' | h'
        · exact Or.inl (List.mem_cons_of_mem _ h')
        · exact Or.inr h'

theorem emitsOk_unit (f : Move → Bool) : EmitsOk f (true, []) :=
  ⟨fun _ m hm => absurd hm (List.not_mem_nil m), fun m hm => absurd hm (List.not_mem_nil m)⟩

theorem emitsOk_call (f : Move → Bool) (m : Move) : EmitsOk f (f m, [m]) := by
  constructor
  · intro h1 m' hm'
    simp only [List.mem_singleton] at hm'
    subst hm'
    simpa using h1
  · intro m' hm'
    simp at hm'

theorem emitsOk_tryMoveInc (b : Board) (pininfo : PinInfo) (f : Move → Bool)
    (fromSq destSq : Square) (kind : MoveType) (prom : Option Piece) :
    EmitsOk f (tryMoveInc b pininfo f fromSq destSq kind prom) := by
  unfold tryMoveInc
  repeat' split
  all_goals first
    | exact emitsOk_unit f
    | exact emitsOk_call f _

theorem emitsOk_emitThen (f : Move → Bool) (p q : Bool × List Move)
    (hp : EmitsOk f p) (hq : EmitsOk f q) : EmitsOk f (emitThen p q) := by
  unfold emitThen
  by_cases h : p.1 = true
  · simp only [h, if_true]
    constructor
    · intro hq1 m hm
      rcases List.mem_append.mp hm with hm | hm
      · exact hp.1 h m hm
      · exact hq.1 hq1 m hm
    · intro m hm
      rcases mem_dropLast_append _ _ hm with hm | hm
      · exact hp.1 h m hm
      · exact hq.2 m hm
  · simp only [Bool.not_eq_true] at h
    simp only [h, Bool.false_eq_true, if_false]
    exact hp

theorem emitsOk_emitFold {α : Type} (f : Move → Bool) (step : α → Bool × List Move)
    (l : List α) (hstep : ∀ x ∈ l, EmitsOk f (step x)) :
    EmitsOk f (emitFold step l) := by
  induction l with
  | nil => exact emitsOk_unit f
  | cons x xs ih =>
    exact emitsOk_emitThen f _ _ (hstep x (List.mem_cons_self x xs))
      (ih fun y hy => hstep y (List.mem_cons_of_mem x hy))

theorem emitsOk_findAttackersInc (b : Board) (pininfo : PinInfo) (f : Move → Bool)
    (dest : Square) (victimType : Piece) (minorMask rookMask queenMask : Bitlist) :
    EmitsOk f (findAttackersInc b pininfo f dest victimType minorMask rookMask queenMask) := by
  unfold findAttackersInc
  refine emitsOk_emitThen f _ _ (emitsOk_emitFold f _ _ fun x _ => ?_)
    (emitsOk_emitThen f _ _ (emitsOk_emitFold f _ _ fun x _ => ?_)
      (emitsOk_emitThen f _ _ (emitsOk_emitFold f _ _ fun x _ => ?_)
        (emitsOk_emitThen f _ _ (emitsOk_emitFold f _ _ fun x _ => ?_)
          (emitsOk_emitFold f _ _ fun x _ => ?_))))
  · split
    · exact emitsOk_emitThen f _ _ (emitsOk_tryMoveInc b pininfo f _ _ _ _)
        (emitsOk_emitThen f _ _ (emitsOk_tryMoveInc b pininfo f _ _ _ _)
          (emitsOk_emitThen f _ _ (emitsOk_tryMoveInc b pininfo f _ _ _ _)
            (emitsOk_tryMoveInc b pininfo f _ _ _ _)))
    · exact emitsOk_tryMoveInc b pininfo f _ _ _ _
  · split
    · exact emitsOk_unit f
    · exact emitsOk_tryMoveInc b pininfo f _ _ _ _
  · split
    · exact emitsOk_unit f
    · exact emitsOk_tryMoveInc b pininfo f _ _ _ _
  · split
    · exact emitsOk_unit f
    · exact emitsOk_tryMoveInc b pininfo f _ _ _ _
  · split
    · exact emitsOk_unit f
    · exact emitsOk_tryMoveInc b pininfo f _ _ _ _

/-- C9: once the continuation returns `false`, `generate_captures_incremental`
never invokes it again and returns: in the recorded invocation sequence,
every invocation except possibly the last returned `true`. -/
theorem generate_captures_incremental_stops (b : Board) (f : Move → Bool) :
    ∀ m ∈ (generateCapturesIncremental b f).2.dropLast, f m = true := by
  refine (emitsOk_emitThen f _ _ (emitsOk_emitFold f _ _ fun x _ =>
      emitsOk_findAttackersInc b _ f _ _ _ _ _)
    (emitsOk_emitThen f _ _ (emitsOk_emitFold f _ _ fun x _ =>
        emitsOk_findAttackersInc b _ f _ _ _ _ _)
      (emitsOk_emitThen f _ _ (emitsOk_emitFold f _ _ fun x _ =>
          emitsOk_findAttackersInc b _ f _ _ _ _ _)
        (emitsOk_emitFold f _ _ fun x _ =>
          emitsOk_findAttackersInc b _ f _ _ _ _ _)))).2

/-- Witness for C9: with the always-true continuation the emitter invokes it
on both captures, and the first invocation (an element of `dropLast`)
returned `true`. -/
theorem generate_captures_incremental_stops_witness :
    Move.new ⟨26, by omega⟩ ⟨35, by omega⟩ .capture none
        ∈ (generateCapturesIncremental boardTwoCaptures (fun _ => true)).2.dropLast
      ∧ (fun (_ : Move) => true) (Move.new ⟨26, by omega⟩ ⟨35, by omega⟩ .capture none)
        = true :=
  ⟨by decide,
   generate_captures_incremental_stops boardTwoCaptures (fun _ => true)
     (Move.new ⟨26, by omega⟩ ⟨35, by omega⟩ .capture none) (by decide)⟩

/-! ## Shared infrastructure for the move-generation claims (C3, C4, C6) -/

/-- Membership in the iteration order of a `Bitlist` is exactly having the
bit set. -/
theorem Bitlist.mem_toList {a : Bitlist} {i : PieceIndex} :
    i ∈ Bitlist.toList a ↔ a.testBit i.val = true := by
  simp [Bitlist.toList, List.mem_filter, List.mem_finRange]

/-- Complementing within 32 bits flips every bit below 32. -/
theorem Bitlist.testBit_inv {a : Bitlist} {i : Nat} (h : i < 32) :
    (Bitlist.inv a).testBit i = !a.testBit i := by
  have e : (0xFFFFFFFF : Nat) = 2 ^ 32 - 1 := by norm_num
  rw [Bitlist.inv, Nat.testBit_xor, e, Nat.testBit_two_pow_sub_one]
  simp [h]

/-- `occupied` is the union of the three kind bitlists (complementing twice
is the identity). -/
theorem Piecemask.occupied_eq (m : Piecemask) :
    m.occupied = (m.pbq ||| m.nbk ||| m.rqk) := by
  simp [Piecemask.occupied, Piecemask.emptyBits, Bitlist.inv, Nat.xor_assoc]

/-- Every pawn bit is an occupied bit. -/
theorem Piecemask.pawns_subset_occupied (m : Piecemask) (i : Nat)
    (h : m.pawns.testBit i = true) : m.occupied.testBit i = true := by
  rw [Piecemask.occupied_eq]
  simp only [Piecemask.pawns, Nat.testBit_land, Bool.and_eq_true] at h
  simp [Nat.testBit_lor, h.1.1]

/-- Every knight bit is an occupied bit. -/
theorem Piecemask.knights_subset_occupied (m : Piecemask) (i : Nat)
    (h : m.knights.testBit i = true) : m.occupied.testBit i = true := by
  rw [Piecemask.occupied_eq]
  simp only [Piecemask.knights, Nat.testBit_land, Bool.and_eq_true] at h
  simp [Nat.testBit_lor, h.1.2]

/-- Every bishop bit is an occupied bit. -/
theorem Piecemask.bishops_subset_occupied (m : Piecemask) (i : Nat)
    (h : m.bishops.testBit i = true) : m.occupied.testBit i = true := by
  rw [Piecemask.occupied_eq]
  simp only [Piecemask.bishops, Nat.testBit_land, Bool.and_eq_true] at h
  simp [Nat.testBit_lor, h.1]

/-- Every rook bit is an occupied bit. -/
theorem Piecemask.rooks_subset_occupied (m : Piecemask) (i : Nat)
    (h : m.rooks.testBit i = true) : m.occupied.testBit i = true := by
  rw [Piecemask.occupied_eq]
  simp only [Piecemask.rooks, Nat.testBit_land, Bool.and_eq_true] at h
  simp [Nat.testBit_lor, h.2]

/-- Every queen bit is an occupied bit. -/
theorem Piecemask.queens_subset_occupied (m : Piecemask) (i : Nat)
    (h : m.queens.testBit i = true) : m.occupied.testBit i = true := by
  rw [Piecemask.occupied_eq]
  simp only [Piecemask.queens, Nat.testBit_land, Bool.and_eq_true] at h
  simp [Nat.testBit_lor, h.1]

/-- Every king bit is an occupied bit. -/
theorem Piecemask.kings_subset_occupied (m : Piecemask) (i : Nat)
    (h : m.kings.testBit i = true) : m.occupied.testBit i = true := by
  rw [Piecemask.occupied_eq]
  simp only [Piecemask.kings, Nat.testBit_land, Bool.and_eq_true] at h
  simp [Nat.testBit_lor, h.1]

/-- A pawn bit is never a king bit. -/
theorem Piecemask.pawns_kings_disjoint (m : Piecemask) (i : PieceIndex)
    (hp : m.pawns.testBit i.val = true) (hk : m.kings.testBit i.val = true) : False := by
  simp only [Piecemask.pawns, Piecemask.kings, Nat.testBit_land,
    Bool.and_eq_true] at hp hk
  rw [Bitlist.testBit_inv i.isLt] at hp
  have h1 := hp.1.2
  rw [hk.1] at h1
  simp at h1

/-- Every move pushed by the shared king-evasion loop starts at the king's
square, lands on a square with no enemy attacker in the attack table, and
avoids the one-step x-ray square behind the king of every checking slider. -/
theorem kingEvasions_mem (b : Board) (ksq : Square)
    (checkers : List (Piece × Option Direction)) (excl : Option Square)
    (m : Move) (hm : m ∈ Board.kingEvasions b ksq checkers excl) :
    m.fromSq = ksq
      ∧ (b.data.attacksTo m.dest b.side.not).isEmpty = true
      ∧ ∀ ck ∈ checkers, isSlider ck.1 = true →
          ∀ dir, ck.2 = some dir → ksq.travel dir ≠ some m.dest := by
  unfold Board.kingEvasions at hm
  rw [List.mem_flatMap] at hm
  obtain ⟨square, -, hm⟩ := hm
  repeat' split at hm
  all_goals try (simp at hm)
  all_goals (
    rename_i hAtt hAny
    first
      | obtain ⟨-, -, rfl⟩ := hm
      | obtain ⟨-, rfl⟩ := hm
      | obtain rfl := hm
    refine ⟨rfl, by simpa using hAtt, ?_⟩
    intro ck hck hs dir hdir htrav
    apply hAny
    rw [List.any_eq_true]
    refine ⟨ck, hck, ?_⟩
    simp only [hdir, htrav]
    have hs' : (decide (ck.1 = Piece.bishop) || decide (ck.1 = Piece.rook)
        || decide (ck.1 = Piece.queen)) = true := hs
    simp [hs', Move.new])

/-- C3: in a double-check position (the side to move's king square has
exactly two enemy attackers in the attack table), every generated move is a
king move from the king's square, its destination has no enemy attacker,
and — for each checking slider with a well-defined direction to the king —
the destination is not the one-step x-ray extension of that slider's attack
through the king's square (the only square of the x-ray a king step could
reach). -/
theorem generate_double_check_only_king_moves (b : Board) (kIdx : PieceIndex)
    (hk : (b.data.kings &&& Bitlist.maskFromColour b.side).peek = some kIdx)
    (h2 : (b.data.attacksTo (b.data.squareOfPiece kIdx) b.side.not).countOnes = 2) :
    ∀ m ∈ b.generate,
      m.fromSq = b.data.squareOfPiece kIdx
        ∧ (b.data.attacksTo m.dest b.side.not).isEmpty = true
        ∧ ∀ a ∈ (b.data.attacksTo (b.data.squareOfPiece kIdx) b.side.not).toList,
            isSlider (b.data.pieceFromBit a) = true →
            ∀ dir, (b.data.squareOfPiece a).direction (b.data.squareOfPiece kIdx)
                = some dir →
              (b.data.squareOfPiece kIdx).travel dir ≠ some m.dest := by
  intro m hm
  have hgen : b.generate = b.generateDoubleCheck := by
    unfold Board.generate
    simp [hk, h2]
  rw [hgen] at hm
  unfold Board.generateDoubleCheck at hm
  simp only [hk] at hm
  obtain ⟨a1, a2, hlist⟩ :=
    List.length_eq_two.mp (h2 : (Bitlist.toList _).length = 2)
  rw [hlist] at hm
  have hm2 : m ∈ b.kingEvasions (b.data.squareOfPiece kIdx)
      [(b.data.pieceFromBit a1,
        (b.data.squareOfPiece a1).direction (b.data.squareOfPiece kIdx)),
       (b.data.pieceFromBit a2,
        (b.data.squareOfPiece a2).direction (b.data.squareOfPiece kIdx))] none := hm
  have hke := kingEvasions_mem b (b.data.squareOfPiece kIdx) _ none m hm2
  refine ⟨hke.1, hke.2.1, ?_⟩
  intro a ha hs dir hdir
  rw [hlist] at ha
  rcases List.mem_pair.mp ha with rfl | rfl
  · exact hke.2.2 (b.data.pieceFromBit a,
      (b.data.squareOfPiece a).direction (b.data.squareOfPiece kIdx))
      (List.mem_cons_self _ _) hs dir hdir
  · exact hke.2.2 (b.data.pieceFromBit a,
      (b.data.squareOfPiece a).direction (b.data.squareOfPiece kIdx))
      (by simp) hs dir hdir

/-- Witness for C3 on the concrete double-check board: the move e8e7 is
generated, starts at the king's square, lands unattacked, and is not the
rook's x-ray square behind the king. -/
theorem generate_double_check_only_king_moves_witness :
    (boardDoubleCheck.data.kings
        &&& Bitlist.maskFromColour boardDoubleCheck.side).peek = some dcKingIdx
      ∧ (boardDoubleCheck.data.attacksTo
          (boardDoubleCheck.data.squareOfPiece dcKingIdx)
          boardDoubleCheck.side.not).countOnes = 2
      ∧ dcMove ∈ boardDoubleCheck.generate
      ∧ dcMove.fromSq = boardDoubleCheck.data.squareOfPiece dcKingIdx
      ∧ (boardDoubleCheck.data.attacksTo dcMove.dest
          boardDoubleCheck.side.not).isEmpty = true
      ∧ (boardDoubleCheck.data.squareOfPiece dcKingIdx).travel .east ≠ some dcMove.dest := by
  have hinst := generate_double_check_only_king_moves boardDoubleCheck dcKingIdx
    (by decide) (by decide) dcMove (by decide)
  exact ⟨by decide, by decide, by decide, hinst.1, hinst.2.1,
    hinst.2.2 ⟨0, by omega⟩ (by decide) (by decide) .east (by decide)⟩

/-! ## C6: promotion generation helper lemmas -/

/-- `peek` returns a set bit. -/
theorem Bitlist.peek_testBit {a : Bitlist} {k : PieceIndex}
    (h : a.peek = some k) : a.testBit k.val = true := by
  unfold Bitlist.peek at h
  cases htl : Bitlist.toList a with
  | nil => rw [htl] at h; simp at h
  | cons x xs =>
    rw [htl] at h
    simp only [List.head?_cons, Option.some_inj] at h
    subst h
    exact Bitlist.mem_toList.mp (htl ▸ List.mem_cons_self x xs)

/-- `square_of_piece` of a live identifier is its recorded square. -/
theorem BoardData.squareOfPiece_eq {d : BoardData} {i : PieceIndex} {sq : Square}
    (h : d.piecelist i = some sq) : d.squareOfPiece i = sq := by
  simp [BoardData.squareOfPiece, Piecelist.get, h]

/-- Every move appended by `try_push_move` is the given move. -/
theorem Board.tryPushMove_mem {b : Board} {pin : PinInfo} {f d : Square}
    {k : MoveType} {pr : Option Piece} {m : Move}
    (hm : m ∈ b.tryPushMove pin f d k pr) : m = Move.new f d k pr := by
  unfold Board.tryPushMove at hm
  repeat' split at hm
  all_goals simp_all

/-- An unpinned piece's `try_push_move` appends exactly the given move. -/
theorem Board.tryPushMove_push {b : Board} {pin : PinInfo} {f d : Square}
    {k : MoveType} {pr : Option Piece} {pi : PieceIndex}
    (hidx : b.data.pieceIndex f = some pi) (hpin : pin.pins pi = none) :
    b.tryPushMove pin f d k pr = [Move.new f d k pr] := by
  unfold Board.tryPushMove
  rw [hidx]
  simp [hpin]

/-- Every move of a `try_push_move` result has the pushed source square. -/
theorem Board.tryPushMove_from {b : Board} {pin : PinInfo} {f d : Square}
    {k : MoveType} {pr : Option Piece} {m : Move}
    (hm : m ∈ b.tryPushMove pin f d k pr) : m.fromSq = f := by
  have h := Board.tryPushMove_mem hm
  subst h
  rfl

/-- Every move of a `try_push_move` result has the pushed destination. -/
theorem Board.tryPushMove_dest {b : Board} {pin : PinInfo} {f d : Square}
    {k : MoveType} {pr : Option Piece} {m : Move}
    (hm : m ∈ b.tryPushMove pin f d k pr) : m.dest = d := by
  have h := Board.tryPushMove_mem hm
  subst h
  rfl

/-- Every move of a `try_push_move` result has the pushed kind. -/
theorem Board.tryPushMove_kind {b : Board} {pin : PinInfo} {f d : Square}
    {k : MoveType} {pr : Option Piece} {m : Move}
    (hm : m ∈ b.tryPushMove pin f d k pr) : m.kind = k := by
  have h := Board.tryPushMove_mem hm
  subst h
  rfl

/-- Every move appended by `find_attackers` captures on the victim square,
with a capturing (never castling) kind. -/
theorem Board.findAttackers_dest_kind {b : Board} {pin : PinInfo} {d : Square}
    {m : Move} (hm : m ∈ b.findAttackers pin d) :
    m.dest = d ∧ m.kind ≠ .castle := by
  have leaf : ∀ (f : Square) (k : MoveType) (pr : Option Piece), k ≠ .castle →
      m ∈ b.tryPushMove pin f d k pr → m.dest = d ∧ m.kind ≠ .castle := by
    intro f k pr hk hm'
    refine ⟨Board.tryPushMove_dest hm', ?_⟩
    rw [Board.tryPushMove_kind hm']
    exact hk
  unfold Board.findAttackers at hm
  rcases List.mem_append.mp hm with hm | hm
  · rcases List.mem_append.mp hm with hm | hm
    · rcases List.mem_append.mp hm with hm | hm
      · rcases List.mem_append.mp hm with hm | hm
        · rcases List.mem_append.mp hm with hm | hm
          · obtain ⟨c, -, hm⟩ := List.mem_flatMap.mp hm
            dsimp only at hm
            split at hm
            · rcases List.mem_append.mp hm with hm | hm
              · rcases List.mem_append.mp hm with hm | hm
                · rcases List.mem_append.mp hm with hm | hm
                  · exact leaf _ _ _ (by decide) hm
                  · exact leaf _ _ _ (by decide) hm
                · exact leaf _ _ _ (by decide) hm
              · exact leaf _ _ _ (by decide) hm
            · exact leaf _ _ _ (by decide) hm
          · obtain ⟨c, -, hm⟩ := List.mem_flatMap.mp hm
            exact leaf _ _ _ (by decide) hm
        · obtain ⟨c, -, hm⟩ := List.mem_flatMap.mp hm
          exact leaf _ _ _ (by decide) hm
      · obtain ⟨c, -, hm⟩ := List.mem_flatMap.mp hm
        exact leaf _ _ _ (by decide) hm
    · obtain ⟨c, -, hm⟩ := List.mem_flatMap.mp hm
      exact leaf _ _ _ (by decide) hm
  · obtain ⟨c, -, hm⟩ := List.mem_flatMap.mp hm
    try dsimp only at hm
    split at hm
    · exact absurd hm (List.not_mem_nil m)
    · exact leaf _ _ _ (by decide) hm

/-- Every move appended by `generate_pawn_quiet` starts at the pawn and has
a quiet pawn (never castling) kind. -/
theorem Board.generatePawnQuiet_from_kind {b : Board} {f : Square}
    {pin : PinInfo} {m : Move} (hm : m ∈ b.generatePawnQuiet f pin) :
    m.fromSq = f ∧ m.kind ≠ .castle := by
  have leaf : ∀ (d : Square) (k : MoveType) (pr : Option Piece), k ≠ .castle →
      m ∈ b.tryPushMove pin f d k pr → m.fromSq = f ∧ m.kind ≠ .castle := by
    intro d k pr hk hm'
    refine ⟨Board.tryPushMove_from hm', ?_⟩
    rw [Board.tryPushMove_kind hm']
    exact hk
  unfold Board.generatePawnQuiet at hm
  split at hm
  · exact absurd hm (List.not_mem_nil m)
  · split at hm
    · rcases List.mem_append.mp hm with hm | hm
      · split at hm
        · rcases List.mem_append.mp hm with hm | hm
          · rcases List.mem_append.mp hm with hm | hm
            · rcases List.mem_append.mp hm with hm | hm
              · exact leaf _ _ _ (by decide) hm
              · exact leaf _ _ _ (by decide) hm
            · exact leaf _ _ _ (by decide) hm
          · exact leaf _ _ _ (by decide) hm
        · exact leaf _ _ _ (by decide) hm
      · split at hm
        · exact absurd hm (List.not_mem_nil m)
        · split at hm
          · exact leaf _ _ _ (by decide) hm
          · exact absurd hm (List.not_mem_nil m)
    · exact absurd hm (List.not_mem_nil m)

/-- Every move appended by `find_attackers` captures on the victim square. -/
theorem Board.findAttackers_dest {b : Board} {pin : PinInfo} {d : Square} {m : Move}
    (hm : m ∈ b.findAttackers pin d) : m.dest = d :=
  (Board.findAttackers_dest_kind hm).1

/-- Every move appended by `generate_pawn_quiet` starts at the pawn. -/
theorem Board.generatePawnQuiet_from {b : Board} {f : Square} {pin : PinInfo} {m : Move}
    (hm : m ∈ b.generatePawnQuiet f pin) : m.fromSq = f :=
  (Board.generatePawnQuiet_from_kind hm).1

/-- A square on the relative eighth rank has no relative-north neighbour. -/
theorem relativeEighth_north_none (sq : Square) (c : Colour)
    (h : sq.rank.isRelativeEighth c = true) : sq.relativeNorth c = none := by
  cases c <;> revert sq <;> decide

/-- With the destination square empty and not the en-passant square, no
generated capture lands on it: every capture's destination carries a live
victim. -/
theorem Board.generateCapturesWith_dest_ne {b : Board} {pin : PinInfo} {dest : Square}
    (hcons : Consistent b.data) (hempty : b.data.hasPiece dest = false)
    (hep : b.ep ≠ some dest) :
    ∀ m ∈ b.generateCapturesWith pin, ¬(m.dest = dest) := by
  have victim : ∀ v : PieceIndex, b.data.pieces.testBit v.val = true →
      ∀ m ∈ b.findAttackers pin (b.squareOfPiece v), ¬(m.dest = dest) := by
    intro v hocc m hm hmd
    obtain ⟨sq, hpl, hidx⟩ := hcons.2.1 v hocc
    have hs : m.dest = b.data.squareOfPiece v := Board.findAttackers_dest hm
    rw [BoardData.squareOfPiece_eq hpl] at hs
    rw [hmd] at hs
    have hocc2 : b.data.hasPiece dest = true := by
      unfold BoardData.hasPiece
      rw [← hs] at hidx
      rw [hidx]
      rfl
    rw [hocc2] at hempty
    exact Bool.noConfusion hempty
  intro m hm hmd
  unfold Board.generateCapturesWith at hm
  rcases List.mem_append.mp hm with hm | hm
  · rcases List.mem_append.mp hm with hm | hm
    · rcases List.mem_append.mp hm with hm | hm
      · rcases List.mem_append.mp hm with hm | hm
        · rcases List.mem_append.mp hm with hm | hm
          · obtain ⟨v, hv, hm⟩ := List.mem_flatMap.mp hm
            have hvb := Bitlist.mem_toList.mp hv
            rw [Nat.testBit_land, Bool.and_eq_true] at hvb
            exact victim v (Piecemask.queens_subset_occupied _ _ hvb.2) m hm hmd
          · obtain ⟨v, hv, hm⟩ := List.mem_flatMap.mp hm
            have hvb := Bitlist.mem_toList.mp hv
            rw [Nat.testBit_land, Bool.and_eq_true] at hvb
            exact victim v (Piecemask.rooks_subset_occupied _ _ hvb.2) m hm hmd
        · obtain ⟨v, hv, hm⟩ := List.mem_flatMap.mp hm
          have hvb := Bitlist.mem_toList.mp hv
          rw [Nat.testBit_land, Bool.and_eq_true] at hvb
          exact victim v (Piecemask.bishops_subset_occupied _ _ hvb.2) m hm hmd
      · obtain ⟨v, hv, hm⟩ := List.mem_flatMap.mp hm
        have hvb := Bitlist.mem_toList.mp hv
        rw [Nat.testBit_land, Bool.and_eq_true] at hvb
        exact victim v (Piecemask.knights_subset_occupied _ _ hvb.2) m hm hmd
    · obtain ⟨v, hv, hm⟩ := List.mem_flatMap.mp hm
      have hvb := Bitlist.mem_toList.mp hv
      rw [Nat.testBit_land, Bool.and_eq_true] at hvb
      exact victim v (Piecemask.pawns_subset_occupied _ _ hvb.2) m hm hmd
  · unfold Board.generatePawnEnpassant at hm
    split at hm
    · exact absurd hm (List.not_mem_nil m)
    · rename_i e he
      obtain ⟨c, -, hm⟩ := List.mem_flatMap.mp hm
      have h := Board.tryPushMove_mem hm
      subst h
      have hde : e = dest := hmd
      rw [hde] at he
      exact hep he

/-- Two live identifiers recorded on the same square coincide. -/
theorem occupant_unique {b : Board} {p0 x : PieceIndex} {fromSq : Square}
    (hcons : Consistent b.data) (hidx0 : b.data.index fromSq = some p0)
    (hxocc : b.data.pieces.testBit x.val = true)
    (hsq : b.data.squareOfPiece x = fromSq) : x = p0 := by
  obtain ⟨sq, hpl, hidx⟩ := hcons.2.1 x hxocc
  rw [BoardData.squareOfPiece_eq hpl] at hsq
  subst hsq
  rw [hidx0] at hidx
  exact (Option.some_inj.mp hidx).symm

/-- C6: with the side to move not in check and an unpinned pawn of that side
whose forward square is empty and lies on the relative eighth rank,
`generate` produces, among moves from that pawn to that square, exactly the
four promotions (queen, knight, rook, bishop — the source's push order) and
no other move between those squares. -/
theorem generate_pawn_promotions (b : Board) (kIdx p0 : PieceIndex)
    (fromSq dest : Square)
    (hcons : Consistent b.data)
    (hk : (b.data.kings &&& Bitlist.maskFromColour b.side).peek = some kIdx)
    (hchecks : b.data.attacksTo (b.data.squareOfPiece kIdx) b.side.not = 0)
    (hp0 : b.data.piecelist p0 = some fromSq)
    (hp0pawn : b.data.pawns.testBit p0.val = true)
    (hp0side : (Bitlist.maskFromColour b.side).testBit p0.val = true)
    (hdest : fromSq.relativeNorth b.side = some dest)
    (h8 : dest.rank.isRelativeEighth b.side = true)
    (hempty : b.data.hasPiece dest = false)
    (hunpin : (b.discoverPinnedPieces).pins p0 = none)
    (hep : b.ep ≠ some dest) :
    b.generate.filter (fun m => m.fromSq = fromSq && m.dest = dest)
      = [Move.new fromSq dest .promotion (some .queen),
         Move.new fromSq dest .promotion (some .knight),
         Move.new fromSq dest .promotion (some .rook),
         Move.new fromSq dest .promotion (some .bishop)] := by
  have hocc0 : b.data.pieces.testBit p0.val = true :=
    Piecemask.pawns_subset_occupied _ _ hp0pawn
  have hidx0 : b.data.index fromSq = some p0 := by
    obtain ⟨sq, hpl, hidx⟩ := hcons.2.1 p0 hocc0
    rw [hp0] at hpl
    rw [← Option.some_inj.mp hpl] at hidx
    exact hidx
  have hsq0 : b.data.squareOfPiece p0 = fromSq := BoardData.squareOfPiece_eq hp0
  have hcnt1 : ¬((0 : Bitlist).countOnes = 1) := by decide
  have hcnt2 : ¬((0 : Bitlist).countOnes = 2) := by decide
  -- component 1: captures never land on the empty square `dest`
  have hcap : (b.generateCapturesWith b.discoverPinnedPieces).filter
      (fun m => m.fromSq = fromSq && m.dest = dest) = [] := by
    rw [List.filter_eq_nil]
    intro m hm
    have hne := Board.generateCapturesWith_dest_ne hcons hempty hep m hm
    simp only [Bool.and_eq_true, decide_eq_true_eq, not_and]
    exact fun _ hd => hne hd
  -- component 2: the pawn loop contributes exactly the four promotions
  have hpawn : ((b.data.pawns &&& Bitlist.maskFromColour b.side).toList.flatMap
      (fun pawn => b.generatePawnQuiet (b.data.squareOfPiece pawn)
        b.discoverPinnedPieces)).filter
      (fun m => m.fromSq = fromSq && m.dest = dest)
      = [Move.new fromSq dest .promotion (some .queen),
         Move.new fromSq dest .promotion (some .knight),
         Move.new fromSq dest .promotion (some .rook),
         Move.new fromSq dest .promotion (some .bishop)] := by
    have hnodup : ((b.data.pawns &&& Bitlist.maskFromColour b.side).toList).Nodup :=
      (List.nodup_finRange 32).filter _
    have hmem : p0 ∈ (b.data.pawns &&& Bitlist.maskFromColour b.side).toList := by
      refine Bitlist.mem_toList.mpr ?_
      rw [Nat.testBit_land, hp0pawn, hp0side]
      rfl
    obtain ⟨l1, l2, hsplit⟩ := List.append_of_mem hmem
    have hnd : (l1 ++ p0 :: l2).Nodup := hsplit ▸ hnodup
    rw [List.nodup_append] at hnd
    have hne1 : ∀ x ∈ l1, x ≠ p0 := fun x hx hxe =>
      hnd.2.2 hx (hxe ▸ List.mem_cons_self _ _)
    have hne2 : ∀ x ∈ l2, x ≠ p0 := fun x hx hxe =>
      (List.nodup_cons.mp hnd.2.1).1 (hxe ▸ hx)
    have hother : ∀ x : PieceIndex,
        x ∈ (b.data.pawns &&& Bitlist.maskFromColour b.side).toList → x ≠ p0 →
        ∀ m ∈ b.generatePawnQuiet (b.data.squareOfPiece x) b.discoverPinnedPieces,
          ¬((fun m => m.fromSq = fromSq && m.dest = dest) m = true) := by
      intro x hx hxne m hm
      simp only [Bool.and_eq_true, decide_eq_true_eq, not_and]
      intro hmf
      exfalso
      have hxb := Bitlist.mem_toList.mp hx
      rw [Nat.testBit_land, Bool.and_eq_true] at hxb
      have hxocc : b.data.pieces.testBit x.val = true :=
        Piecemask.pawns_subset_occupied _ _ hxb.1
      have hmf2 : b.data.squareOfPiece x = fromSq := by
        rw [← Board.generatePawnQuiet_from hm, hmf]
      exact hxne (occupant_unique hcons hidx0 hxocc hmf2)
    have hp0part : (b.generatePawnQuiet (b.data.squareOfPiece p0)
        b.discoverPinnedPieces).filter
        (fun m => m.fromSq = fromSq && m.dest = dest)
        = [Move.new fromSq dest .promotion (some .queen),
           Move.new fromSq dest .promotion (some .knight),
           Move.new fromSq dest .promotion (some .rook),
           Move.new fromSq dest .promotion (some .bishop)] := by
      rw [hsq0]
      unfold Board.generatePawnQuiet
      simp only [hdest, hempty, h8, relativeEighth_north_none dest b.side h8]
      rw [Board.tryPushMove_push hidx0 hunpin, Board.tryPushMove_push hidx0 hunpin,
          Board.tryPushMove_push hidx0 hunpin, Board.tryPushMove_push hidx0 hunpin]
      simp [Move.new]
    have hl1 : (l1.flatMap (fun pawn => b.generatePawnQuiet
        (b.data.squareOfPiece pawn) b.discoverPinnedPieces)).filter
        (fun m => m.fromSq = fromSq && m.dest = dest) = [] := by
      rw [List.filter_eq_nil]
      intro m hm
      rw [List.mem_flatMap] at hm
      obtain ⟨x, hx, hm⟩ := hm
      exact hother x (hsplit ▸ List.mem_append_left _ hx) (hne1 x hx) m hm
    have hl2 : (l2.flatMap (fun pawn => b.generatePawnQuiet
        (b.data.squareOfPiece pawn) b.discoverPinnedPieces)).filter
        (fun m => m.fromSq = fromSq && m.dest = dest) = [] := by
      rw [List.filter_eq_nil]
      intro m hm
      rw [List.mem_flatMap] at hm
      obtain ⟨x, hx, hm⟩ := hm
      exact hother x
        (hsplit ▸ List.mem_append_right _ (List.mem_cons_of_mem _ hx))
        (hne2 x hx) m hm
    rw [hsplit, List.flatMap_append, List.flatMap_cons, List.filter_append,
        List.filter_append, hl1, hl2, hp0part]
    simp
  -- component 3: the quiet loop never moves this pawn (it skips pawns)
  have hquiet : ((List.finRange 64).flatMap (fun d' =>
      if b.data.hasPiece d' then []
      else
        (b.data.attacksTo d' b.side &&& Bitlist.inv b.data.pawns).toList.flatMap
          (fun attacker =>
            if b.data.pieceFromBit attacker = .king
                && !((b.data.attacksTo d' b.side.not).isEmpty) then []
            else
              b.tryPushMove b.discoverPinnedPieces
                (b.data.squareOfPiece attacker) d' .normal none))).filter
      (fun m => m.fromSq = fromSq && m.dest = dest) = [] := by
    rw [List.filter_eq_nil]
    intro m hm
    rw [List.mem_flatMap] at hm
    obtain ⟨d', -, hm⟩ := hm
    simp only [Bool.and_eq_true, decide_eq_true_eq, not_and]
    intro hmf
    exfalso
    split at hm
    · exact absurd hm (List.not_mem_nil m)
    · rw [List.mem_flatMap] at hm
      obtain ⟨a, ha, hm⟩ := hm
      have hmf2 : b.data.squareOfPiece a = fromSq := by
        have hfrom : m.fromSq = b.data.squareOfPiece a := by
          split at hm
          · exact absurd hm (List.not_mem_nil m)
          · exact Board.tryPushMove_from hm
        rw [← hfrom, hmf]
      have hab := Bitlist.mem_toList.mp ha
      rw [Nat.testBit_land, Bool.and_eq_true] at hab
      have hatt : (b.data.bitlist d').testBit a.val = true := by
        have h1 := hab.1
        unfold BoardData.attacksTo at h1
        rw [Nat.testBit_land, Bool.and_eq_true] at h1
        exact h1.1
      have haocc : b.data.pieces.testBit a.val = true := hcons.2.2 d' a hatt
      have hap0 : a = p0 := occupant_unique hcons hidx0 haocc hmf2
      have hinv := hab.2
      rw [hap0, Bitlist.testBit_inv p0.isLt, hp0pawn] at hinv
      exact Bool.false_ne_true hinv
  -- the king is not this pawn, so the castle components never match
  have hking : ∀ m : Move, m.fromSq = b.data.squareOfPiece kIdx →
      ¬((fun m => m.fromSq = fromSq && m.dest = dest) m = true) := by
    intro m hmk
    simp only [Bool.and_eq_true, decide_eq_true_eq, not_and]
    intro hmf
    exfalso
    have hkb := Bitlist.peek_testBit hk
    rw [Nat.testBit_land, Bool.and_eq_true] at hkb
    have hkocc : b.data.pieces.testBit kIdx.val = true :=
      Piecemask.kings_subset_occupied _ _ hkb.1
    have hkfrom : b.data.squareOfPiece kIdx = fromSq := by
      rw [← hmk, hmf]
    have hkp0 : kIdx = p0 := occupant_unique hcons hidx0 hkocc hkfrom
    exact Piecemask.pawns_kings_disjoint b.data.piecemask p0 hp0pawn (hkp0 ▸ hkb.1)
  have hks : (match (b.data.squareOfPiece kIdx).east with
      | none => ([] : List Move)
      | some east1 =>
        match east1.east with
        | none => []
        | some east2 =>
          if (b.data.attacksTo (b.data.squareOfPiece kIdx) b.side.not).isEmpty
              && !(b.data.hasPiece east1)
              && (b.data.attacksTo east1 b.side.not).isEmpty
              && !(b.data.hasPiece east2)
              && (b.data.attacksTo east2 b.side.not).isEmpty then
            b.tryPushMove b.discoverPinnedPieces (b.data.squareOfPiece kIdx)
              east2 .castle none
          else []).filter (fun (m : Move) => m.fromSq = fromSq && m.dest = dest) = [] := by
    rw [List.filter_eq_nil]
    intro m hm
    refine hking m ?_
    repeat' split at hm
    all_goals first
      | exact absurd hm (List.not_mem_nil m)
      | exact Board.tryPushMove_from hm
  have hqs : (match (b.data.squareOfPiece kIdx).west with
      | none => ([] : List Move)
      | some west1 =>
        match west1.west with
        | none => []
        | some west2 =>
          match west2.west with
          | none => []
          | some west3 =>
            if (b.data.attacksTo (b.data.squareOfPiece kIdx) b.side.not).isEmpty
                && !(b.data.hasPiece west1)
                && (b.data.attacksTo west1 b.side.not).isEmpty
                && !(b.data.hasPiece west2)
                && (b.data.attacksTo west2 b.side.not).isEmpty
                && !(b.data.hasPiece west3) then
              b.tryPushMove b.discoverPinnedPieces (b.data.squareOfPiece kIdx)
                west2 .castle none
            else []).filter (fun (m : Move) => m.fromSq = fromSq && m.dest = dest) = [] := by
    rw [List.filter_eq_nil]
    intro m hm
    refine hking m ?_
    repeat' split at hm
    all_goals first
      | exact absurd hm (List.not_mem_nil m)
      | exact Board.tryPushMove_from hm
  -- assemble the five components
  rw [hchecks] at hks hqs
  unfold Board.generate
  simp only [hk]
  rw [hchecks, if_neg hcnt1, if_neg hcnt2]
  rw [List.filter_append, List.filter_append, List.filter_append,
      List.filter_append]
  rw [hcap, hpawn, hquiet]
  split
  · rw [hks]
    split
    · rw [hqs]
      simp
    · simp
  · split
    · rw [hqs]
      simp
    · simp

set_option maxRecDepth 100000

/-- Witness for C6 on the concrete board: the moves generated from b7 to b8
are exactly the four promotions. -/
theorem generate_pawn_promotions_witness :
    Consistent boardPromo.data
      ∧ (boardPromo.data.kings &&& Bitlist.maskFromColour boardPromo.side).peek
          = some ⟨1, by omega⟩
      ∧ boardPromo.data.attacksTo
          (boardPromo.data.squareOfPiece ⟨1, by omega⟩) boardPromo.side.not = 0
      ∧ boardPromo.data.piecelist ⟨0, by omega⟩ = some ⟨49, by omega⟩
      ∧ boardPromo.generate.filter
          (fun m => m.fromSq = (⟨49, by omega⟩ : Square)
            && m.dest = (⟨57, by omega⟩ : Square))
        = [Move.new ⟨49, by omega⟩ ⟨57, by omega⟩ .promotion (some .queen),
           Move.new ⟨49, by omega⟩ ⟨57, by omega⟩ .promotion (some .knight),
           Move.new ⟨49, by omega⟩ ⟨57, by omega⟩ .promotion (some .rook),
           Move.new ⟨49, by omega⟩ ⟨57, by omega⟩ .promotion (some .bishop)] :=
  ⟨by decide, by decide, by decide, by decide,
   generate_pawn_promotions boardPromo ⟨1, by omega⟩ ⟨0, by omega⟩
     ⟨49, by omega⟩ ⟨57, by omega⟩ (by decide) (by decide) (by decide) (by decide)
     (by decide) (by decide) (by decide) (by decide) (by decide) (by decide)
     (by decide)⟩

/-! ## C4: castling generation helper lemmas -/

/-- No move appended by `find_attackers` is a castle. -/
theorem Board.findAttackers_kind {b : Board} {pin : PinInfo} {d : Square} {m : Move}
    (hm : m ∈ b.findAttackers pin d) : m.kind ≠ .castle :=
  (Board.findAttackers_dest_kind hm).2

/-- No move appended by `generate_captures` is a castle. -/
theorem Board.generateCapturesWith_kind {b : Board} {pin : PinInfo} {m : Move}
    (hm : m ∈ b.generateCapturesWith pin) : m.kind ≠ .castle := by
  unfold Board.generateCapturesWith at hm
  rcases List.mem_append.mp hm with hm | hm
  · rcases List.mem_append.mp hm with hm | hm
    · rcases List.mem_append.mp hm with hm | hm
      · rcases List.mem_append.mp hm with hm | hm
        · rcases List.mem_append.mp hm with hm | hm
          · obtain ⟨v, -, hm⟩ := List.mem_flatMap.mp hm
            exact Board.findAttackers_kind hm
          · obtain ⟨v, -, hm⟩ := List.mem_flatMap.mp hm
            exact Board.findAttackers_kind hm
        · obtain ⟨v, -, hm⟩ := List.mem_flatMap.mp hm
          exact Board.findAttackers_kind hm
      · obtain ⟨v, -, hm⟩ := List.mem_flatMap.mp hm
        exact Board.findAttackers_kind hm
    · obtain ⟨v, -, hm⟩ := List.mem_flatMap.mp hm
      exact Board.findAttackers_kind hm
  · unfold Board.generatePawnEnpassant at hm
    split at hm
    · exact absurd hm (List.not_mem_nil m)
    · obtain ⟨c, -, hm⟩ := List.mem_flatMap.mp hm
      rw [Board.tryPushMove_kind hm]
      decide

/-- No move appended by `generate_pawn_quiet` is a castle. -/
theorem Board.generatePawnQuiet_kind {b : Board} {f : Square} {pin : PinInfo} {m : Move}
    (hm : m ∈ b.generatePawnQuiet f pin) : m.kind ≠ .castle :=
  (Board.generatePawnQuiet_from_kind hm).2

/-- No king evasion is a castle. -/
theorem Board.kingEvasions_kind {b : Board} {ksq : Square}
    {checkers : List (Piece × Option Direction)} {excl : Option Square} {m : Move}
    (hm : m ∈ Board.kingEvasions b ksq checkers excl) : m.kind ≠ .castle := by
  unfold Board.kingEvasions at hm
  rw [List.mem_flatMap] at hm
  obtain ⟨square, -, hm⟩ := hm
  repeat' split at hm
  all_goals try (simp at hm)
  all_goals (
    first
      | obtain ⟨-, -, rfl⟩ := hm
      | obtain ⟨-, rfl⟩ := hm
      | obtain rfl := hm
    simp [Move.new])

/-- No move appended by `add_pawn_blocks` is a castle. -/
theorem Board.addPawnBlocks_kind {b : Board} {pin : PinInfo} {d : Square} {m : Move}
    (hm : m ∈ b.addPawnBlocks pin d) : m.kind ≠ .castle := by
  unfold Board.addPawnBlocks Board.addPawnBlock at hm
  repeat' split at hm
  all_goals first
    | exact absurd hm (List.not_mem_nil m)
    | (have h := Board.tryPushMove_mem hm; subst h; simp [Move.new])

/-- No move appended by the capture-the-checker loop of
`generate_single_check` is a castle. -/
theorem Board.singleCheckCaptures_kind {b : Board} {pin : PinInfo} {a : Square}
    {m : Move} (hm : m ∈ b.singleCheckCaptures pin a) : m.kind ≠ .castle := by
  unfold Board.singleCheckCaptures at hm
  obtain ⟨c, -, hm⟩ := List.mem_flatMap.mp hm
  try dsimp only at hm
  split at hm
  · exact absurd hm (List.not_mem_nil m)
  · split at hm
    · rcases List.mem_append.mp hm with hm | hm
      · rcases List.mem_append.mp hm with hm | hm
        · rcases List.mem_append.mp hm with hm | hm
          · rw [Board.tryPushMove_kind hm]
            decide
          · rw [Board.tryPushMove_kind hm]
            decide
        · rw [Board.tryPushMove_kind hm]
          decide
      · rw [Board.tryPushMove_kind hm]
        decide
    · rw [Board.tryPushMove_kind hm]
      decide

/-- No interposition move is a castle. -/
theorem Board.singleCheckBlocksWalk_kind {b : Board} {pin : PinInfo}
    {attackerSquare : Square} {l : List Square} {m : Move}
    (hm : m ∈ b.singleCheckBlocksWalk pin attackerSquare l) : m.kind ≠ .castle := by
  induction l with
  | nil => exact absurd hm (List.not_mem_nil m)
  | cons s rest ih =>
    unfold Board.singleCheckBlocksWalk at hm
    split at hm
    · exact absurd hm (List.not_mem_nil m)
    · rcases List.mem_append.mp hm with hm' | hm'
      · unfold Board.singleCheckBlockAt at hm'
        rcases List.mem_append.mp hm' with hm2 | hm2
        · rw [List.mem_flatMap] at hm2
          obtain ⟨a, -, hm2⟩ := hm2
          have h := Board.tryPushMove_mem hm2
          subst h
          simp [Move.new]
        · exact Board.addPawnBlocks_kind hm2
      · exact ih hm'

/-- No move generated under single check is a castle. -/
theorem Board.generateSingleCheck_kind {b : Board} {m : Move}
    (hm : m ∈ b.generateSingleCheck) : m.kind ≠ .castle := by
  unfold Board.generateSingleCheck at hm
  split at hm
  · exact absurd hm (List.not_mem_nil m)
  · try dsimp only at hm
    split at hm
    · exact absurd hm (List.not_mem_nil m)
    · rcases List.mem_append.mp hm with hm | hm
      · rcases List.mem_append.mp hm with hm | hm
        · rcases List.mem_append.mp hm with hm | hm
          · exact Board.singleCheckCaptures_kind hm
          · split at hm
            · exact absurd hm (List.not_mem_nil m)
            · split at hm
              · exact absurd hm (List.not_mem_nil m)
              · split at hm
                · obtain ⟨c, -, hm⟩ := List.mem_flatMap.mp hm
                  rw [Board.tryPushMove_kind hm]
                  decide
                · exact absurd hm (List.not_mem_nil m)
        · split at hm
          · split at hm
            · exact Board.singleCheckBlocksWalk_kind hm
            · exact absurd hm (List.not_mem_nil m)
          · exact absurd hm (List.not_mem_nil m)
      · exact Board.kingEvasions_kind hm

/-- No move generated under double check is a castle. -/
theorem Board.generateDoubleCheck_kind {b : Board} {m : Move}
    (hm : m ∈ b.generateDoubleCheck) : m.kind ≠ .castle := by
  unfold Board.generateDoubleCheck at hm
  split at hm
  · exact absurd hm (List.not_mem_nil m)
  · try dsimp only at hm
    split at hm
    · exact Board.kingEvasions_kind hm
    · exact absurd hm (List.not_mem_nil m)

/-- Stepping east increments the square index. -/
theorem Square.east_val : ∀ (sq t : Square), sq.east = some t → t.val = sq.val + 1 := by
  decide

/-- Stepping west decrements the square index. -/
theorem Square.west_val : ∀ (sq t : Square), sq.west = some t → t.val + 1 = sq.val := by
  decide

/-- The first component of a `pinScan` result is the starting friendly
blocker or a piece found on a scanned square other than the king's. -/
theorem Board.pinScan_fst (d : BoardData) (side : Colour) (k : Square) :
    ∀ (squares : List Square) (fb eb : Option PieceIndex) (blocker : PieceIndex),
    (Board.pinScan d side k squares fb eb).1 = some blocker →
    fb = some blocker ∨ ∃ s ∈ squares, s ≠ k ∧ d.pieceIndex s = some blocker := by
  intro squares
  induction squares with
  | nil => intro fb eb blocker h; exact Or.inl h
  | cons s rest ih =>
    intro fb eb blocker h
    unfold Board.pinScan at h
    split at h
    · exact Or.inl h
    case isFalse hsk =>
    split at h
    · rcases ih fb eb blocker h with h' | ⟨t, ht, htk, hti⟩
      · exact Or.inl h'
      · exact Or.inr ⟨t, List.mem_cons_of_mem _ ht, htk, hti⟩
    case h_2 pieceIdx hpi =>
    split at h
    · split at h
      · simp at h
      · rcases ih fb (some pieceIdx) blocker h with h' | ⟨t, ht, htk, hti⟩
        · exact Or.inl h'
        · exact Or.inr ⟨t, List.mem_cons_of_mem _ ht, htk, hti⟩
    · split at h
      · simp at h
      · rcases ih (some pieceIdx) eb blocker h with h' | ⟨t, ht, htk, hti⟩
        · refine Or.inr ⟨s, List.mem_cons_self _ _, hsk, ?_⟩
          rw [hpi, h']
        · exact Or.inr ⟨t, List.mem_cons_of_mem _ ht, htk, hti⟩

/-- A fold whose step preserves the absence of a pin on `k` preserves it
over any list. -/
theorem Board.foldl_pins_none {α : Type} (f : PinInfo → α → PinInfo) (k : PieceIndex)
    (hf : ∀ info a, info.pins k = none → (f info a).pins k = none) :
    ∀ (l : List α) (info : PinInfo), info.pins k = none →
      (l.foldl f info).pins k = none := by
  intro l
  induction l with
  | nil => intro info h; exact h
  | cons x xs ih => intro info h; exact ih (f info x) (hf info x h)

/-- The king itself is never recorded as pinned: every pin is keyed by a
piece standing on a scanned square distinct from the king's square. -/
theorem Board.discoverPinnedPieces_king_none (b : Board) (kIdx : PieceIndex)
    (hk : (b.data.kings &&& Bitlist.maskFromColour b.side).peek = some kIdx)
    (hidx : ∀ sq i, b.data.pieceIndex sq = some i → b.data.piecelist i = some sq)
    (hplk : b.data.piecelist kIdx = some (b.data.squareOfPiece kIdx)) :
    b.discoverPinnedPieces.pins kIdx = none := by
  unfold Board.discoverPinnedPieces
  simp only [hk]
  refine Board.foldl_pins_none _ _ ?_ _ _ rfl
  intro info pp h
  dsimp only
  split
  · exact h
  split
  · exact h
  split
  · exact h
  case h_2 blocker heq =>
    dsimp only
    rw [if_neg]
    · exact h
    · intro hkb
      rcases Board.pinScan_fst b.data b.side _ _ none none blocker (by rw [heq])
        with hfb | ⟨s, _, hs_ne, hs_idx⟩
      · exact Option.noConfusion hfb
      · have h1 := hidx s blocker hs_idx
        rw [← hkb, hplk] at h1
        exact hs_ne (Option.some.inj h1).symm
  case h_3 fb eb heq =>
    split
    · exact h
    · exact h

/-- No move appended by the quiet-destination loop of `generate` is a
castle. -/
theorem Board.quietLoop_kind {b : Board} {pin : PinInfo} {m : Move}
    (hm : m ∈ (List.finRange 64).flatMap (fun dest =>
      if b.data.hasPiece dest then []
      else
        (b.data.attacksTo dest b.side &&& b.data.pawns.inv).toList.flatMap
          (fun attacker =>
            if b.data.pieceFromBit attacker = .king
                && !((b.data.attacksTo dest b.side.not).isEmpty) then []
            else
              b.tryPushMove pin (b.data.squareOfPiece attacker) dest
                .normal none))) :
    m.kind ≠ .castle := by
  rw [List.mem_flatMap] at hm
  obtain ⟨dest, -, hm⟩ := hm
  split at hm
  · exact absurd hm (List.not_mem_nil m)
  · rw [List.mem_flatMap] at hm
    obtain ⟨a, -, hm⟩ := hm
    split at hm
    · exact absurd hm (List.not_mem_nil m)
    · have h := Board.tryPushMove_mem hm
      subst h
      simp [Move.new]

/-- C4: with the side to move's king present at its recorded square and the
two squares east and three squares west of it on the board, `generate` emits
the kingside castle (king two squares east) if and only if the side retains
the corresponding kingside right, the king's square is not attacked by the
enemy, and the two squares the king traverses are empty and not attacked;
and it emits the queenside castle (king two squares west) if and only if the
side retains the corresponding queenside right, the king's square is not
attacked, the two squares the king traverses are empty and not attacked, and
the third square (adjacent to the rook) is empty — that square is not
required to be unattacked. -/
theorem generate_castles_iff (b : Board) (kIdx : PieceIndex)
    (e1 e2 w1 w2 w3 : Square)
    (hk : (b.data.kings &&& Bitlist.maskFromColour b.side).peek = some kIdx)
    (hidx : ∀ sq i, b.data.pieceIndex sq = some i → b.data.piecelist i = some sq)
    (hplk : b.data.piecelist kIdx = some (b.data.squareOfPiece kIdx))
    (hke : b.data.pieceIndex (b.data.squareOfPiece kIdx) = some kIdx)
    (he1 : (b.data.squareOfPiece kIdx).east = some e1)
    (he2 : e1.east = some e2)
    (hw1 : (b.data.squareOfPiece kIdx).west = some w1)
    (hw2 : w1.west = some w2)
    (hw3 : w2.west = some w3) :
    (Move.new (b.data.squareOfPiece kIdx) e2 .castle none ∈ b.generate ↔
      ((b.side = .white && b.castle0) || (b.side = .black && b.castle2)) = true
        ∧ (b.data.attacksTo (b.data.squareOfPiece kIdx) b.side.not).isEmpty = true
        ∧ b.data.hasPiece e1 = false
        ∧ (b.data.attacksTo e1 b.side.not).isEmpty = true
        ∧ b.data.hasPiece e2 = false
        ∧ (b.data.attacksTo e2 b.side.not).isEmpty = true)
    ∧ (Move.new (b.data.squareOfPiece kIdx) w2 .castle none ∈ b.generate ↔
      ((b.side = .white && b.castle1) || (b.side = .black && b.castle3)) = true
        ∧ (b.data.attacksTo (b.data.squareOfPiece kIdx) b.side.not).isEmpty = true
        ∧ b.data.hasPiece w1 = false
        ∧ (b.data.attacksTo w1 b.side.not).isEmpty = true
        ∧ b.data.hasPiece w2 = false
        ∧ (b.data.attacksTo w2 b.side.not).isEmpty = true
        ∧ b.data.hasPiece w3 = false) := by
  have hpin : b.discoverPinnedPieces.pins kIdx = none :=
    Board.discoverPinnedPieces_king_none b kIdx hk hidx hplk
  have hv1 := Square.east_val _ _ he1
  have hv2 := Square.east_val _ _ he2
  have hv3 := Square.west_val _ _ hw1
  have hv4 := Square.west_val _ _ hw2
  have hne : e2 ≠ w2 := by
    intro hh
    rw [hh] at hv2
    omega
  have hcnt0 : ∀ a : Bitlist, a.isEmpty = true → a.countOnes = 0 := by
    intro a ha
    have h0 : a = 0 := by simpa [Bitlist.isEmpty] using ha
    subst h0
    decide
  constructor
  · constructor
    · intro hm
      unfold Board.generate at hm
      simp only [hk, he1, he2, hw1, hw2, hw3] at hm
      split at hm
      · exact absurd rfl (Board.generateSingleCheck_kind hm)
      split at hm
      · exact absurd rfl (Board.generateDoubleCheck_kind hm)
      simp only [List.mem_append] at hm
      rcases hm with ((((hm | hm) | hm) | hm) | hm)
      · exact absurd rfl (Board.generateCapturesWith_kind hm)
      · rw [List.mem_flatMap] at hm
        obtain ⟨p, -, hm⟩ := hm
        exact absurd rfl (Board.generatePawnQuiet_kind hm)
      · exact absurd rfl (Board.quietLoop_kind hm)
      · split at hm
        · rename_i hri
          split at hm
          · rename_i hgd
            simp only [Bool.and_eq_true, Bool.not_eq_true'] at hgd
            exact ⟨hri, hgd.1.1.1.1, hgd.1.1.1.2, hgd.1.1.2, hgd.1.2, hgd.2⟩
          · exact absurd hm (List.not_mem_nil _)
        · exact absurd hm (List.not_mem_nil _)
      · split at hm
        · split at hm
          · have h := Board.tryPushMove_mem hm
            simp only [Move.new, Move.mk.injEq] at h
            exact absurd h.2.1 hne
          · exact absurd hm (List.not_mem_nil _)
        · exact absurd hm (List.not_mem_nil _)
    · rintro ⟨hri, hc1, hc2, hc3, hc4, hc5⟩
      unfold Board.generate
      simp only [hk, he1, he2, hw1, hw2, hw3]
      rw [if_neg (by simp [hcnt0 _ hc1]), if_neg (by simp [hcnt0 _ hc1])]
      simp only [List.mem_append]
      refine Or.inl (Or.inr ?_)
      rw [if_pos hri,
        if_pos (by
          simp only [Bool.and_eq_true, Bool.not_eq_true']
          exact ⟨⟨⟨⟨hc1, hc2⟩, hc3⟩, hc4⟩, hc5⟩)]
      rw [Board.tryPushMove_push hke hpin]
      exact List.mem_singleton.mpr rfl
  · constructor
    · intro hm
      unfold Board.generate at hm
      simp only [hk, he1, he2, hw1, hw2, hw3] at hm
      split at hm
      · exact absurd rfl (Board.generateSingleCheck_kind hm)
      split at hm
      · exact absurd rfl (Board.generateDoubleCheck_kind hm)
      simp only [List.mem_append] at hm
      rcases hm with ((((hm | hm) | hm) | hm) | hm)
      · exact absurd rfl (Board.generateCapturesWith_kind hm)
      · rw [List.mem_flatMap] at hm
        obtain ⟨p, -, hm⟩ := hm
        exact absurd rfl (Board.generatePawnQuiet_kind hm)
      · exact absurd rfl (Board.quietLoop_kind hm)
      · split at hm
        · split at hm
          · have h := Board.tryPushMove_mem hm
            have hdw : w2 = e2 := by
              have h2 := congrArg Move.dest h
              simpa [Move.new] using h2
            exact absurd hdw.symm hne
          · exact absurd hm (List.not_mem_nil _)
        · exact absurd hm (List.not_mem_nil _)
      · split at hm
        · rename_i hri
          split at hm
          · rename_i hgd
            simp only [Bool.and_eq_true, Bool.not_eq_true'] at hgd
            exact ⟨hri, hgd.1.1.1.1.1, hgd.1.1.1.1.2, hgd.1.1.1.2, hgd.1.1.2,
              hgd.1.2, hgd.2⟩
          · exact absurd hm (List.not_mem_nil _)
        · exact absurd hm (List.not_mem_nil _)
    · rintro ⟨hri, hc1, hc2, hc3, hc4, hc5, hc6⟩
      unfold Board.generate
      simp only [hk, he1, he2, hw1, hw2, hw3]
      rw [if_neg (by simp [hcnt0 _ hc1]), if_neg (by simp [hcnt0 _ hc1])]
      simp only [List.mem_append]
      refine Or.inr ?_
      rw [if_pos hri,
        if_pos (by
          simp only [Bool.and_eq_true, Bool.not_eq_true']
          exact ⟨⟨⟨⟨⟨hc1, hc2⟩, hc3⟩, hc4⟩, hc5⟩, hc6⟩)]
      rw [Board.tryPushMove_push hke hpin]
      exact List.mem_singleton.mpr rfl

/-- Witness for C4 at the castle-ready position: both the kingside castle
e1g1 and the queenside castle e1c1 are emitted. -/
theorem generate_castles_iff_witness :
    Move.new (boardCastle.data.squareOfPiece ⟨1, by omega⟩) ⟨6, by omega⟩
        .castle none ∈ boardCastle.generate
      ∧ Move.new (boardCastle.data.squareOfPiece ⟨1, by omega⟩) ⟨2, by omega⟩
        .castle none ∈ boardCastle.generate :=
  ⟨(generate_castles_iff boardCastle ⟨1, by omega⟩ ⟨5, by omega⟩ ⟨6, by omega⟩
      ⟨3, by omega⟩ ⟨2, by omega⟩ ⟨1, by omega⟩ (by decide) (by decide)
      (by decide) (by decide) (by decide) (by decide) (by decide) (by decide)
      (by decide)).1.mpr (by decide),
   (generate_castles_iff boardCastle ⟨1, by omega⟩ ⟨5, by omega⟩ ⟨6, by omega⟩
      ⟨3, by omega⟩ ⟨2, by omega⟩ ⟨1, by omega⟩ (by decide) (by decide)
      (by decide) (by decide) (by decide) (by decide) (by decide) (by decide)
      (by decide)).2.mpr (by decide)⟩

end Yukari
